import Mathlib

/-! Shallow embedding of `control_points.py`: a tridiagonal (Thomas-algorithm)
solver with a Sherman–Morrison cyclic correction (`solve`, source lines 42–100)
and the Bézier spline builder on top of it (`spline_through`, lines 102–159).
Real arithmetic is modelled exactly, by `ℚ`. -/

namespace ControlPoints

/-- Python index resolution: a negative index counts from the end of the list. -/
def pyIdx (len : ℕ) (i : ℤ) : ℤ := if i < 0 then i + len else i

/-- Python list read `l[i]`, total with default `0`; it agrees with Python
whenever the resolved index is in range (which is the case for every read
the embedded code performs on vectors of length at least 1). -/
def pyGet (l : List ℚ) (i : ℤ) : ℚ := l.getD (pyIdx l.length i).toNat 0

/-- Python list write `l[i] = v`, total; agrees with Python whenever the
resolved index is in range. -/
def pySet (l : List ℚ) (i : ℤ) (v : ℚ) : List ℚ := l.set (pyIdx l.length i).toNat v

/-- Working state of `solve`: the four vectors `x`, `y`, `z`, `bb`
allocated at source lines 46–49. -/
structure SV where
  x : List ℚ
  y : List ℚ
  z : List ℚ
  bb : List ℚ
deriving DecidableEq

/-- Lines 46–60 of `solve`: vectors initialised to the sentinel `-1e9`,
then `bb[0]` (3 when cyclic, 2 otherwise), `x[0] = rx[0]`, `y[0] = ry[0]`,
`z[0] = 1`. -/
def initSV (rx ry : List ℚ) (cyclic : Bool) : SV :=
  let n := rx.length
  let sent : ℚ := -(10^9)
  { x := (List.replicate n sent).set 0 (rx.getD 0 0)
    y := (List.replicate n sent).set 0 (ry.getD 0 0)
    z := (List.replicate n sent).set 0 1
    bb := (List.replicate n sent).set 0 (if cyclic then 3 else 2) }

/-- Lines 63–66: one forward-elimination step at row `i` (only invoked with
`1 ≤ i ≤ n-2`, where all the index expressions are nonnegative). -/
def fwdStep (rx ry : List ℚ) (s : SV) (i : ℕ) : SV :=
  let bb := s.bb.set i (4 - 1 / s.bb.getD (i-1) 0)
  let x := s.x.set i (rx.getD i 0 - s.x.getD (i-1) 0 / bb.getD (i-1) 0)
  let y := s.y.set i (ry.getD i 0 - s.y.getD (i-1) 0 / bb.getD (i-1) 0)
  let z := s.z.set i (0 - s.z.getD (i-1) 0 / bb.getD (i-1) 0)
  { x := x, y := y, z := z, bb := bb }

/-- Line 62: the forward sweep `for i in range(1, n-1)`. -/
def fwdSweep (rx ry : List ℚ) (s : SV) : SV :=
  (List.range' 1 (rx.length - 2)).foldl (fwdStep rx ry) s

/-- Lines 68–85: the last-row elimination with `(a, b) = (1, 3)` when cyclic
and `(2, 7)` otherwise, followed by the immediate division of row `n-1` by
`bb[n-1]`.  The index expressions `n-1` and `n-2` are kept as integers read
through `pyGet`/`pySet` because for `n = 1` Python resolves `bb[n-2]` as
`bb[-1]`, i.e. the same element `bb[0]`. -/
def lastRow (rx ry : List ℚ) (cyclic : Bool) (s : SV) : SV :=
  let n := rx.length
  let an1 : ℚ := if cyclic then 1 else 2
  let bn1 : ℚ := if cyclic then 3 else 7
  let bb := pySet s.bb ((n:ℤ)-1) (bn1 - an1 / pyGet s.bb ((n:ℤ)-2))
  let x := pySet s.x ((n:ℤ)-1)
      (pyGet rx ((n:ℤ)-1) - an1 * pyGet s.x ((n:ℤ)-2) / pyGet bb ((n:ℤ)-2))
  let y := pySet s.y ((n:ℤ)-1)
      (pyGet ry ((n:ℤ)-1) - an1 * pyGet s.y ((n:ℤ)-2) / pyGet bb ((n:ℤ)-2))
  let z := pySet s.z ((n:ℤ)-1) (1 - pyGet s.z ((n:ℤ)-2) / pyGet bb ((n:ℤ)-2))
  let x := pySet x ((n:ℤ)-1) (pyGet x ((n:ℤ)-1) / pyGet bb ((n:ℤ)-1))
  let y := pySet y ((n:ℤ)-1) (pyGet y ((n:ℤ)-1) / pyGet bb ((n:ℤ)-1))
  let z := pySet z ((n:ℤ)-1) (pyGet z ((n:ℤ)-1) / pyGet bb ((n:ℤ)-1))
  { x := x, y := y, z := z, bb := bb }

/-- Lines 87–89: one back-substitution step at row `i`. -/
def backStep (s : SV) (i : ℕ) : SV :=
  { x := s.x.set i ((s.x.getD i 0 - s.x.getD (i+1) 0) / s.bb.getD i 0)
    y := s.y.set i ((s.y.getD i 0 - s.y.getD (i+1) 0) / s.bb.getD i 0)
    z := s.z.set i ((s.z.getD i 0 - s.z.getD (i+1) 0) / s.bb.getD i 0)
    bb := s.bb }

/-- Line 86: the back-substitution loop `for i in range(n-2, -1, -1)`. -/
def backSub (n : ℕ) (s : SV) : SV :=
  ((List.range (n-1)).reverse).foldl backStep s

/-- Lines 42–90 of `solve`: everything up to and including back-substitution,
before the cyclic Sherman–Morrison correction. -/
def solveCore (rx ry : List ℚ) (cyclic : Bool) : SV :=
  backSub rx.length (lastRow rx ry cyclic (fwdSweep rx ry (initSV rx ry cyclic)))

/-- Lines 98–99: one step of the cyclic correction loop. -/
def corrStep (fx fy : ℚ) (s : SV) (i : ℕ) : SV :=
  { s with
    x := s.x.set i (s.x.getD i 0 - fx * s.z.getD i 0)
    y := s.y.set i (s.y.getD i 0 - fy * s.z.getD i 0) }

/-- Lines 92–99: the Sherman–Morrison correction applied when cyclic. -/
def cyclicCorrect (n : ℕ) (s : SV) : SV :=
  let d := 1 + s.z.getD 0 0 + s.z.getD (n-1) 0
  let fx := (s.x.getD 0 0 + s.x.getD (n-1) 0) / d
  let fy := (s.y.getD 0 0 + s.y.getD (n-1) 0) / d
  (List.range n).foldl (corrStep fx fy) s

/-- Lines 42–100: the solver; returns the pair `(x, y)`. -/
def solve (rx ry : List ℚ) (cyclic : Bool) : List ℚ × List ℚ :=
  let s := solveCore rx ry cyclic
  let s := if cyclic then cyclicCorrect rx.length s else s
  (s.x, s.y)

/-- Line 44's `assert n == len(ry)`, modelled as a guard: `none` is the
failed assertion. -/
def solveChecked (rx ry : List ℚ) (cyclic : Bool) : Option (List ℚ × List ℚ) :=
  if rx.length = ry.length then some (solve rx ry cyclic) else none

/-- Line 103's unit-conversion constant `28.45274` (TeX points per cm). -/
def scaleConst : ℚ := 2845274 / 100000

/-- Line 103: `K = list(map(lambda x: (x[0]*28.45274, x[1]*28.45274), points))`. -/
def knotsOf (points : List (ℚ × ℚ)) : List (ℚ × ℚ) :=
  points.map (fun p => (p.1 * scaleConst, p.2 * scaleConst))

/-- Lines 104–107: the number of segments (`n` in `spline_through`). -/
def segCount (points : List (ℚ × ℚ)) (cyclic : Bool) : ℕ :=
  if cyclic then points.length else points.length - 1

/-- Lines 109–126: assembly of one right-hand-side vector; `rx` is obtained
with `f = Prod.fst` and `ry` with `f = Prod.snd`.  Note that for `n = 1` in
the non-cyclic branch the final write `rx[n-1] = 8*K[n-1][0] + K[n][0]`
overwrites the first write at index 0, exactly as in the source. -/
def rAssemble (f : ℚ × ℚ → ℚ) (K : List (ℚ × ℚ)) (n : ℕ) (cyclic : Bool) :
    List ℚ :=
  let r0 : List ℚ := List.replicate n 0
  if cyclic then
    (List.range n).foldl
      (fun a i => a.set i (4 * f (K.getD i (0,0)) + 2 * f (K.getD ((i+1) % n) (0,0)))) r0
  else
    let a := r0.set 0 (f (K.getD 0 (0,0)) + 2 * f (K.getD 1 (0,0)))
    let a := (List.range' 1 (n-2)).foldl
      (fun a i => a.set i (4 * f (K.getD i (0,0)) + 2 * f (K.getD (i+1) (0,0)))) a
    a.set (n-1) (8 * f (K.getD (n-1) (0,0)) + f (K.getD n (0,0)))

/-- The `rx` vector of `spline_through`. -/
def rxOf (points : List (ℚ × ℚ)) (cyclic : Bool) : List ℚ :=
  rAssemble Prod.fst (knotsOf points) (segCount points cyclic) cyclic

/-- The `ry` vector of `spline_through`. -/
def ryOf (points : List (ℚ × ℚ)) (cyclic : Bool) : List ℚ :=
  rAssemble Prod.snd (knotsOf points) (segCount points cyclic) cyclic

/-- Line 128: `Px, Py = solve(rx, ry, cyclic)`. -/
def POf (points : List (ℚ × ℚ)) (cyclic : Bool) : List ℚ × List ℚ :=
  solve (rxOf points cyclic) (ryOf points cyclic) cyclic

/-- Lines 111–112 and 130–138: the second-control-point vector for one axis. -/
def qAssemble (f : ℚ × ℚ → ℚ) (K : List (ℚ × ℚ)) (P : List ℚ) (n : ℕ)
    (cyclic : Bool) : List ℚ :=
  let q0 : List ℚ := List.replicate n 0
  let q := (List.range (n-1)).foldl
    (fun a i => a.set i (2 * f (K.getD (i+1) (0,0)) - P.getD (i+1) 0)) q0
  if cyclic then q.set (n-1) (2 * f (K.getD 0 (0,0)) - P.getD 0 0)
  else q.set (n-1) ((f (K.getD n (0,0)) + P.getD (n-1) 0) / 2)

/-- The `Qx` vector of `spline_through`. -/
def QxOf (points : List (ℚ × ℚ)) (cyclic : Bool) : List ℚ :=
  qAssemble Prod.fst (knotsOf points) (POf points cyclic).1
    (segCount points cyclic) cyclic

/-- The `Qy` vector of `spline_through`. -/
def QyOf (points : List (ℚ × ℚ)) (cyclic : Bool) : List ℚ :=
  qAssemble Prod.snd (knotsOf points) (POf points cyclic).2
    (segCount points cyclic) cyclic

/-- One emitted curve segment: start knot, the two control points, end knot
(the numeric payload of the drawing directives at lines 140–150). -/
structure Segment where
  k0 : ℚ × ℚ
  p : ℚ × ℚ
  q : ℚ × ℚ
  k1 : ℚ × ℚ
deriving DecidableEq

/-- Lines 102–150: the spline builder; the returned list records, in drawing
order, each emitted segment. -/
def spline_through (points : List (ℚ × ℚ)) (cyclic : Bool) : List Segment :=
  let K := knotsOf points
  let n := segCount points cyclic
  (List.range n).map (fun i =>
    let j := if cyclic then (i+1) % n else i+1
    { k0 := K.getD i (0,0)
      p := ((POf points cyclic).1.getD i 0, (POf points cyclic).2.getD i 0)
      q := ((QxOf points cyclic).getD i 0, (QyOf points cyclic).getD i 0)
      k1 := K.getD j (0,0) })

/-! Exception-aware variant of the embedding.  The functions below recompute
the same values inside `Option`, where `none` marks exactly the places the
Python code would raise: an `IndexError` (a list access whose resolved index,
after Python's negative-index wrap, is out of range), a `ZeroDivisionError`,
or the failed `assert` of line 44.  `some` therefore means the call completes
without any exception. -/

/-- Bounds-checked Python read: `none` is an `IndexError`. -/
def pyGetO (l : List ℚ) (i : ℤ) : Option ℚ :=
  let j := pyIdx l.length i
  if 0 ≤ j ∧ j < (l.length : ℤ) then some (l.getD j.toNat 0) else none

/-- Bounds-checked Python write: `none` is an `IndexError`. -/
def pySetO (l : List ℚ) (i : ℤ) (v : ℚ) : Option (List ℚ) :=
  let j := pyIdx l.length i
  if 0 ≤ j ∧ j < (l.length : ℤ) then some (l.set j.toNat v) else none

/-- Bounds-checked Python read on a list of points. -/
def pyGetPO (l : List (ℚ × ℚ)) (i : ℤ) : Option (ℚ × ℚ) :=
  let j := pyIdx l.length i
  if 0 ≤ j ∧ j < (l.length : ℤ) then some (l.getD j.toNat (0, 0)) else none

/-- Checked division: `none` is a `ZeroDivisionError`. -/
def pyDivO (a b : ℚ) : Option ℚ := if b = 0 then none else some (a / b)

/-- Lines 46–60, exception-aware. -/
def initSVO (rx ry : List ℚ) (cyclic : Bool) : Option SV := do
  let n := rx.length
  let sent : ℚ := -(10^9)
  let bb ← pySetO (List.replicate n sent) 0 (if cyclic then 3 else 2)
  let r0 ← pyGetO rx 0
  let x ← pySetO (List.replicate n sent) 0 r0
  let q0 ← pyGetO ry 0
  let y ← pySetO (List.replicate n sent) 0 q0
  let z ← pySetO (List.replicate n sent) 0 1
  pure ⟨x, y, z, bb⟩

/-- Lines 63–66, exception-aware. -/
def fwdStepO (rx ry : List ℚ) (s : SV) (i : ℕ) : Option SV := do
  let b0 ← pyGetO s.bb ((i:ℤ)-1)
  let t1 ← pyDivO 1 b0
  let bb ← pySetO s.bb i (4 - t1)
  let r1 ← pyGetO rx i
  let x1 ← pyGetO s.x ((i:ℤ)-1)
  let b1 ← pyGetO bb ((i:ℤ)-1)
  let t2 ← pyDivO x1 b1
  let x ← pySetO s.x i (r1 - t2)
  let r2 ← pyGetO ry i
  let y1 ← pyGetO s.y ((i:ℤ)-1)
  let t3 ← pyDivO y1 b1
  let y ← pySetO s.y i (r2 - t3)
  let z1 ← pyGetO s.z ((i:ℤ)-1)
  let t4 ← pyDivO z1 b1
  let z ← pySetO s.z i (0 - t4)
  pure ⟨x, y, z, bb⟩

/-- Line 62, exception-aware. -/
def fwdSweepO (rx ry : List ℚ) (s : SV) : Option SV :=
  (List.range' 1 (rx.length - 2)).foldlM (fwdStepO rx ry) s

/-- Line 76, exception-aware: `bb[n-1] = bn_1 - an_1/bb[n-2]`. -/
def lastPivotO (n : ℕ) (an1 bn1 : ℚ) (bb : List ℚ) : Option (List ℚ) := do
  let b0 ← pyGetO bb ((n:ℤ)-2)
  let t ← pyDivO an1 b0
  pySetO bb ((n:ℤ)-1) (bn1 - t)

/-- Lines 77–78, exception-aware: `v[n-1] = r[n-1] - an_1*v[n-2]/bb[n-2]`. -/
def lastElimO (n : ℕ) (an1 : ℚ) (r v bb : List ℚ) : Option (List ℚ) := do
  let rl ← pyGetO r ((n:ℤ)-1)
  let vp ← pyGetO v ((n:ℤ)-2)
  let b1 ← pyGetO bb ((n:ℤ)-2)
  let t ← pyDivO (an1 * vp) b1
  pySetO v ((n:ℤ)-1) (rl - t)

/-- Line 79, exception-aware: `z[n-1] = 1.0 - z[n-2]/bb[n-2]` (the source
uses the raw value 1 and no `an_1` factor on this row). -/
def lastElimZO (n : ℕ) (z bb : List ℚ) : Option (List ℚ) := do
  let zp ← pyGetO z ((n:ℤ)-2)
  let b1 ← pyGetO bb ((n:ℤ)-2)
  let t ← pyDivO zp b1
  pySetO z ((n:ℤ)-1) (1 - t)

/-- Lines 82–84, exception-aware: `v[n-1] = v[n-1]/bb[n-1]`. -/
def normLastO (n : ℕ) (v bb : List ℚ) : Option (List ℚ) := do
  let vl ← pyGetO v ((n:ℤ)-1)
  let bl ← pyGetO bb ((n:ℤ)-1)
  let t ← pyDivO vl bl
  pySetO v ((n:ℤ)-1) t

/-- Lines 68–85, exception-aware. -/
def lastRowO (rx ry : List ℚ) (cyclic : Bool) (s : SV) : Option SV := do
  let n := rx.length
  let an1 : ℚ := if cyclic then 1 else 2
  let bn1 : ℚ := if cyclic then 3 else 7
  let bb ← lastPivotO n an1 bn1 s.bb
  let x ← lastElimO n an1 rx s.x bb
  let y ← lastElimO n an1 ry s.y bb
  let z ← lastElimZO n s.z bb
  let x ← normLastO n x bb
  let y ← normLastO n y bb
  let z ← normLastO n z bb
  pure ⟨x, y, z, bb⟩

/-- Lines 87–89, exception-aware. -/
def backStepO (s : SV) (i : ℕ) : Option SV := do
  let xa ← pyGetO s.x i
  let xb ← pyGetO s.x ((i:ℤ)+1)
  let ba ← pyGetO s.bb i
  let t1 ← pyDivO (xa - xb) ba
  let x ← pySetO s.x i t1
  let ya ← pyGetO s.y i
  let yb ← pyGetO s.y ((i:ℤ)+1)
  let t2 ← pyDivO (ya - yb) ba
  let y ← pySetO s.y i t2
  let za ← pyGetO s.z i
  let zb ← pyGetO s.z ((i:ℤ)+1)
  let t3 ← pyDivO (za - zb) ba
  let z ← pySetO s.z i t3
  pure ⟨x, y, z, s.bb⟩

/-- Line 86, exception-aware. -/
def backSubO (n : ℕ) (s : SV) : Option SV :=
  ((List.range (n-1)).reverse).foldlM backStepO s

/-- Lines 98–99, exception-aware. -/
def corrStepO (fx fy : ℚ) (s : SV) (i : ℕ) : Option SV := do
  let xa ← pyGetO s.x i
  let za ← pyGetO s.z i
  let x ← pySetO s.x i (xa - fx * za)
  let ya ← pyGetO s.y i
  let y ← pySetO s.y i (ya - fy * za)
  pure { s with x := x, y := y }

/-- Lines 92–99, exception-aware. -/
def cyclicCorrectO (n : ℕ) (s : SV) : Option SV := do
  let z0 ← pyGetO s.z 0
  let zl ← pyGetO s.z ((n:ℤ)-1)
  let d := 1 + z0 + zl
  let x0 ← pyGetO s.x 0
  let xl ← pyGetO s.x ((n:ℤ)-1)
  let fx ← pyDivO (x0 + xl) d
  let y0 ← pyGetO s.y 0
  let yl ← pyGetO s.y ((n:ℤ)-1)
  let fy ← pyDivO (y0 + yl) d
  (List.range n).foldlM (corrStepO fx fy) s

/-- Lines 42–100, exception-aware; the initial guard is line 44's assert. -/
def solveO (rx ry : List ℚ) (cyclic : Bool) : Option (List ℚ × List ℚ) := do
  let n := rx.length
  if n = ry.length then
    let s ← initSVO rx ry cyclic
    let s ← fwdSweepO rx ry s
    let s ← lastRowO rx ry cyclic s
    let s ← backSubO n s
    let s ← if cyclic then cyclicCorrectO n s else pure s
    pure (s.x, s.y)
  else none

/-- Lines 109–126, exception-aware (the source fills `rx` and `ry` in one
loop; splitting the two axes into separate passes preserves both the values
and whether any access raises). -/
def rAssembleO (f : ℚ × ℚ → ℚ) (K : List (ℚ × ℚ)) (n : ℕ) (cyclic : Bool) :
    Option (List ℚ) :=
  let r0 : List ℚ := List.replicate n 0
  if cyclic then
    (List.range n).foldlM (fun a i => do
      let ki ← pyGetPO K i
      let kj ← pyGetPO K (((i:ℤ)+1) % (n:ℤ))
      pySetO a i (4 * f ki + 2 * f kj)) r0
  else do
    let k0 ← pyGetPO K 0
    let k1 ← pyGetPO K 1
    let a ← pySetO r0 0 (f k0 + 2 * f k1)
    let a ← (List.range' 1 (n-2)).foldlM (fun a i => do
      let ki ← pyGetPO K i
      let kj ← pyGetPO K ((i:ℤ)+1)
      pySetO a i (4 * f ki + 2 * f kj)) a
    let kl ← pyGetPO K ((n:ℤ)-1)
    let kn ← pyGetPO K n
    pySetO a ((n:ℤ)-1) (8 * f kl + f kn)

/-- Lines 130–138, exception-aware. -/
def qAssembleO (f : ℚ × ℚ → ℚ) (K : List (ℚ × ℚ)) (P : List ℚ) (n : ℕ)
    (cyclic : Bool) : Option (List ℚ) := do
  let q0 : List ℚ := List.replicate n 0
  let q ← (List.range (n-1)).foldlM (fun a i => do
    let kj ← pyGetPO K ((i:ℤ)+1)
    let pj ← pyGetO P ((i:ℤ)+1)
    pySetO a i (2 * f kj - pj)) q0
  if cyclic then do
    let k0 ← pyGetPO K 0
    let p0 ← pyGetO P 0
    pySetO q ((n:ℤ)-1) (2 * f k0 - p0)
  else do
    let kn ← pyGetPO K n
    let pl ← pyGetO P ((n:ℤ)-1)
    let t ← pyDivO (f kn + pl) 2
    pySetO q ((n:ℤ)-1) t

/-- Lines 102–150, exception-aware: `some segs` means `spline_through`
completes without raising and emits exactly `segs`. -/
def splineO (points : List (ℚ × ℚ)) (cyclic : Bool) : Option (List Segment) := do
  let K := knotsOf points
  let n := segCount points cyclic
  let rx ← rAssembleO Prod.fst K n cyclic
  let ry ← rAssembleO Prod.snd K n cyclic
  let P ← solveO rx ry cyclic
  let Qx ← qAssembleO Prod.fst K P.1 n cyclic
  let Qy ← qAssembleO Prod.snd K P.2 n cyclic
  (List.range n).mapM (fun i => do
    let j : ℤ := if cyclic then ((i:ℤ)+1) % (n:ℤ) else (i:ℤ)+1
    let k0 ← pyGetPO K i
    let k1 ← pyGetPO K j
    let px ← pyGetO P.1 i
    let py ← pyGetO P.2 i
    let qx ← pyGetO Qx i
    let qy ← pyGetO Qy i
    pure { k0 := k0, p := (px, py), q := (qx, qy), k1 := k1 })

/-- Uniform scaling of a point by a scalar (used to state homogeneity). -/
def pmul (s : ℚ) (v : ℚ × ℚ) : ℚ × ℚ := (s * v.1, s * v.2)

/-- Uniform scaling of a whole segment by a scalar. -/
def segMul (s : ℚ) (g : Segment) : Segment :=
  { k0 := pmul s g.k0, p := pmul s g.p, q := pmul s g.q, k1 := pmul s g.k1 }

/-! Specification-side description of the solver, written as plain
recurrences following the spec's wording (forward sweep, last row,
back-substitution).  These are compared with the fold-based embedding
above by the characterisation lemmas further down. -/

/-- Running pivot of the forward sweep as the spec states it:
`bb[0] = 3` when cyclic and `2` otherwise, `bb[i] = 4 - 1/bb[i-1]`
(meaningful for `i ≤ n-2`). -/
def bbClaim (cyclic : Bool) : ℕ → ℚ
  | 0 => if cyclic then 3 else 2
  | i + 1 => 4 - 1 / bbClaim cyclic i

/-- Last-row coefficient `a[n-1]`: 1 when cyclic, 2 otherwise. -/
def aLast (cyclic : Bool) : ℚ := if cyclic then 1 else 2

/-- Last-row coefficient `b[n-1]`: 3 when cyclic, 7 otherwise. -/
def bLast (cyclic : Bool) : ℚ := if cyclic then 3 else 7

/-- The final pivot `bb[n-1] = b[n-1] - a[n-1]/bb[n-2]`. -/
def bbLast (cyclic : Bool) (n : ℕ) : ℚ :=
  bLast cyclic - aLast cyclic / bbClaim cyclic (n - 2)

/-- The pivot vector entry at index `i` of an `n`-row system. -/
def bbSpecVal (cyclic : Bool) (n i : ℕ) : ℚ :=
  if i = n - 1 then bbLast cyclic n else bbClaim cyclic i

/-- Forward-eliminated value of a right-hand side `r`:
`v[0] = r 0`, `v[i] = r i - v[i-1]/bb[i-1]` (meaningful for `i ≤ n-2`). -/
def fwdVal (cyclic : Bool) (r : ℕ → ℚ) : ℕ → ℚ
  | 0 => r 0
  | i + 1 => r (i + 1) - fwdVal cyclic r i / bbClaim cyclic i

/-- Raw auxiliary vector: `z[0] = 1` and `z[i] = 0` elsewhere. -/
def zRaw (i : ℕ) : ℚ := if i = 0 then 1 else 0

/-- Last-row value for the `x`/`y` rows, already divided by the final
pivot: `(r[n-1] - a[n-1]·v[n-2]/bb[n-2]) / bb[n-1]`. -/
def lastVal (cyclic : Bool) (n : ℕ) (r : ℕ → ℚ) : ℚ :=
  (r (n - 1) - aLast cyclic * fwdVal cyclic r (n - 2) / bbClaim cyclic (n - 2)) /
    bbLast cyclic n

/-- Last-row value of `z` as the source computes it (line 79): raw value 1
and coefficient 1 on this row in both modes, then divided by the final
pivot. -/
def zLastVal (cyclic : Bool) (n : ℕ) : ℚ :=
  (1 - fwdVal cyclic zRaw (n - 2) / bbClaim cyclic (n - 2)) / bbLast cyclic n

/-- Last-row value of `z` under the literal reading of the spec sentence
(raw value 0 away from index 0 and the cyclic-dependent coefficient
`a[n-1]`), for comparison with `zLastVal`. -/
def zLastValClaim (cyclic : Bool) (n : ℕ) : ℚ :=
  (0 - aLast cyclic * fwdVal cyclic zRaw (n - 2) / bbClaim cyclic (n - 2)) /
    bbLast cyclic n

/-- Back-substituted value at distance `k` from the last row:
`backAux 0` is the (already divided) last-row value, and the value at
index `n-1-(k+1)` is `(v[i] - v[i+1])/bb[i]` with `i = n-2-k`. -/
def backAux (cyclic : Bool) (n : ℕ) (fw : ℕ → ℚ) (last : ℚ) : ℕ → ℚ
  | 0 => last
  | k + 1 => (fw (n - 2 - k) - backAux cyclic n fw last k) / bbClaim cyclic (n - 2 - k)

/-- Final (back-substituted) solution value at index `i` for the
right-hand side `r`, before any cyclic correction. -/
def specVal (cyclic : Bool) (n : ℕ) (r : ℕ → ℚ) (i : ℕ) : ℚ :=
  backAux cyclic n (fwdVal cyclic r) (lastVal cyclic n r) (n - 1 - i)

/-- Final (back-substituted) value of the auxiliary vector `z` at index
`i`, with the last row as the source computes it. -/
def specZVal (cyclic : Bool) (n : ℕ) (i : ℕ) : ℚ :=
  backAux cyclic n (fwdVal cyclic zRaw) (zLastVal cyclic n) (n - 1 - i)

/-- Final value of `z` at index `i` under the literal reading of the spec
sentence for the last row. -/
def specZValClaim (cyclic : Bool) (n : ℕ) (i : ℕ) : ℚ :=
  backAux cyclic n (fwdVal cyclic zRaw) (zLastValClaim cyclic n) (n - 1 - i)

/-- Length bookkeeping: all four solver vectors have length `n`. -/
def SVlen (n : ℕ) (s : SV) : Prop :=
  s.x.length = n ∧ s.y.length = n ∧ s.z.length = n ∧ s.bb.length = n

/-- Partial forward sweep: rows `1 … m` processed. -/
def fwdRun (rx ry : List ℚ) (cyclic : Bool) (m : ℕ) : SV :=
  (List.range' 1 m).foldl (fwdStep rx ry) (initSV rx ry cyclic)

/-- Invariant of the forward sweep: after processing rows `1 … m`, the
entries at indices `≤ m` hold the spec recurrences. -/
def FwdOK (rx ry : List ℚ) (cyclic : Bool) (m : ℕ) (s : SV) : Prop :=
  SVlen rx.length s ∧
  ∀ j, j ≤ m →
    s.bb.getD j 0 = bbClaim cyclic j ∧
    s.x.getD j 0 = fwdVal cyclic (fun i => rx.getD i 0) j ∧
    s.y.getD j 0 = fwdVal cyclic (fun i => ry.getD i 0) j ∧
    s.z.getD j 0 = fwdVal cyclic zRaw j

/-- State after forward sweep and last row, before back-substitution. -/
def preBack (rx ry : List ℚ) (cyclic : Bool) : SV :=
  lastRow rx ry cyclic (fwdSweep rx ry (initSV rx ry cyclic))

/-- Default segment used with `List.getD`. -/
def seg0 : Segment := ⟨(0,0), (0,0), (0,0), (0,0)⟩

/-- Sherman–Morrison denominator `d = 1 + z[0] + z[n-1]` in spec terms. -/
def dSpec (n : ℕ) : ℚ := 1 + specZVal true n 0 + specZVal true n (n - 1)

/-- Final solution value at index `i` in spec terms: the back-substituted
value, with the Sherman–Morrison correction applied when cyclic. -/
def solSpec (cyclic : Bool) (n : ℕ) (r : ℕ → ℚ) (i : ℕ) : ℚ :=
  if cyclic then
    specVal true n r i -
      (specVal true n r 0 + specVal true n r (n - 1)) / dSpec n * specZVal true n i
  else specVal false n r i

/-! Generic list helpers used throughout the proofs. -/

lemma getD_set_self (l : List ℚ) (i : ℕ) (v : ℚ) (h : i < l.length) :
    (l.set i v).getD i 0 = v := by
  simp [List.getD_eq_getElem?_getD, List.getElem?_set_self h]

lemma getD_set_ne (l : List ℚ) {i j : ℕ} (v : ℚ) (h : i ≠ j) :
    (l.set i v).getD j 0 = l.getD j 0 := by
  simp [List.getD_eq_getElem?_getD, List.getElem?_set_ne h]

lemma getD_replicate_lt {n i : ℕ} (c : ℚ) (h : i < n) :
    (List.replicate n c).getD i 0 = c := by
  simp [List.getD_eq_getElem?_getD, List.getElem?_replicate, h]

lemma pyGet_natCast (l : List ℚ) (k : ℕ) : pyGet l (k : ℤ) = l.getD k 0 := by
  have h : ¬ ((k : ℤ) < 0) := by omega
  simp [pyGet, pyIdx, h]

lemma pySet_natCast (l : List ℚ) (k : ℕ) (v : ℚ) :
    pySet l (k : ℤ) v = l.set k v := by
  have h : ¬ ((k : ℤ) < 0) := by omega
  simp [pySet, pyIdx, h]

lemma pyGet_sub_natCast (l : List ℚ) {n k : ℕ} (h : k ≤ n) :
    pyGet l ((n : ℤ) - (k : ℤ)) = l.getD (n - k) 0 := by
  have : ((n : ℤ) - (k : ℤ)) = ((n - k : ℕ) : ℤ) := by omega
  rw [this, pyGet_natCast]

lemma pySet_sub_natCast (l : List ℚ) {n k : ℕ} (h : k ≤ n) (v : ℚ) :
    pySet l ((n : ℤ) - (k : ℤ)) v = l.set (n - k) v := by
  have : ((n : ℤ) - (k : ℤ)) = ((n - k : ℕ) : ℤ) := by omega
  rw [this, pySet_natCast]

lemma SVlen_initSV (rx ry : List ℚ) (cyclic : Bool) :
    SVlen rx.length (initSV rx ry cyclic) := by
  simp [SVlen, initSV]

lemma SVlen_fwdStep {n : ℕ} (rx ry : List ℚ) {s : SV} (h : SVlen n s) (i : ℕ) :
    SVlen n (fwdStep rx ry s i) := by
  obtain ⟨h1, h2, h3, h4⟩ := h
  simp [SVlen, fwdStep, h1, h2, h3, h4]

lemma SVlen_foldl {n : ℕ} {g : SV → ℕ → SV}
    (hg : ∀ s i, SVlen n s → SVlen n (g s i)) :
    ∀ (l : List ℕ) {s : SV}, SVlen n s → SVlen n (l.foldl g s) := by
  intro l
  induction l with
  | nil => intro s h; simpa using h
  | cons a t ih => intro s h; simpa using ih (hg s a h)

lemma SVlen_lastRow {n : ℕ} {rx : List ℚ} (hn : rx.length = n) (ry : List ℚ)
    (cyclic : Bool) {s : SV} (h : SVlen n s) :
    SVlen n (lastRow rx ry cyclic s) := by
  obtain ⟨h1, h2, h3, h4⟩ := h
  simp [SVlen, lastRow, pySet, h1, h2, h3, h4, hn]

lemma SVlen_backStep {n : ℕ} {s : SV} (h : SVlen n s) (i : ℕ) :
    SVlen n (backStep s i) := by
  obtain ⟨h1, h2, h3, h4⟩ := h
  simp [SVlen, backStep, h1, h2, h3, h4]

lemma SVlen_corrStep {n : ℕ} (fx fy : ℚ) {s : SV} (h : SVlen n s) (i : ℕ) :
    SVlen n (corrStep fx fy s i) := by
  obtain ⟨h1, h2, h3, h4⟩ := h
  simp [SVlen, corrStep, h1, h2, h3, h4]

lemma SVlen_solveCore (rx ry : List ℚ) (cyclic : Bool) :
    SVlen rx.length (solveCore rx ry cyclic) := by
  unfold solveCore backSub fwdSweep
  apply SVlen_foldl (fun s i h => SVlen_backStep h i)
  apply SVlen_lastRow rfl
  apply SVlen_foldl (fun s i h => SVlen_fwdStep rx ry h i)
  exact SVlen_initSV rx ry cyclic

lemma SVlen_cyclicCorrect {n : ℕ} {s : SV} (h : SVlen n s) :
    SVlen n (cyclicCorrect n s) := by
  unfold cyclicCorrect
  exact SVlen_foldl (fun s i h => SVlen_corrStep _ _ h i) _ h

lemma solve_lengths (rx ry : List ℚ) (cyclic : Bool) :
    (solve rx ry cyclic).1.length = rx.length ∧
      (solve rx ry cyclic).2.length = rx.length := by
  have hc := SVlen_solveCore rx ry cyclic
  unfold solve
  cases cyclic with
  | false => simpa using ⟨hc.1, hc.2.1⟩
  | true =>
    have h2 := SVlen_cyclicCorrect hc
    simpa using ⟨h2.1, h2.2.1⟩

/-! Characterisation of the solver: the fold-based embedding computes the
recurrences `bbClaim`, `fwdVal`, `lastVal`, `backAux`. -/

lemma fwdSweep_eq_fwdRun (rx ry : List ℚ) (cyclic : Bool) :
    fwdSweep rx ry (initSV rx ry cyclic) = fwdRun rx ry cyclic (rx.length - 2) := rfl

lemma fwdRun_ok (rx ry : List ℚ) (cyclic : Bool) (hn : 2 ≤ rx.length) :
    ∀ m, m ≤ rx.length - 2 → FwdOK rx ry cyclic m (fwdRun rx ry cyclic m) := by
  intro m
  induction m with
  | zero =>
    intro _
    constructor
    · simpa [fwdRun] using SVlen_initSV rx ry cyclic
    · intro j hj
      interval_cases j
      have h0 : 0 < rx.length := by omega
      refine ⟨?_, ?_, ?_, ?_⟩ <;>
        simp [fwdRun, initSV, getD_set_self, h0, bbClaim, fwdVal, zRaw]
  | succ m ih =>
    intro hm
    have hm' : m ≤ rx.length - 2 := by omega
    obtain ⟨hlen, hval⟩ := ih hm'
    have hstep : fwdRun rx ry cyclic (m + 1)
        = fwdStep rx ry (fwdRun rx ry cyclic m) (m + 1) := by
      unfold fwdRun
      rw [List.range'_1_concat, List.foldl_append]
      simp [Nat.add_comm]
    set s := fwdRun rx ry cyclic m with hs
    obtain ⟨hx, hy, hz, hbb⟩ := hlen
    have hlt : m + 1 < rx.length := by omega
    have hne : ∀ j : ℕ, j ≤ m → m + 1 ≠ j := by omega
    have hbbm : (s.bb.set (m+1) (4 - 1/s.bb.getD m 0)).getD m 0 = s.bb.getD m 0 :=
      getD_set_ne _ _ (by omega)
    constructor
    · rw [hstep]
      exact SVlen_fwdStep rx ry ⟨hx, hy, hz, hbb⟩ (m + 1)
    · intro j hj
      rw [hstep]
      rcases Nat.lt_or_ge j (m + 1) with hjm | hjm
      · have hjm' : j ≤ m := by omega
        obtain ⟨b1, x1, y1, z1⟩ := hval j hjm'
        have hne' : m + 1 ≠ j := by omega
        refine ⟨?_, ?_, ?_, ?_⟩
        · simp only [fwdStep]
          rw [getD_set_ne _ _ hne', b1]
        · simp only [fwdStep]
          rw [getD_set_ne _ _ hne', x1]
        · simp only [fwdStep]
          rw [getD_set_ne _ _ hne', y1]
        · simp only [fwdStep]
          rw [getD_set_ne _ _ hne', z1]
      · have hj1 : j = m + 1 := by omega
        subst hj1
        obtain ⟨b1, x1, y1, z1⟩ := hval m (le_refl m)
        have e1 : (fwdStep rx ry s (m+1)).bb.getD (m+1) 0 = 4 - 1/s.bb.getD m 0 := by
          simp only [fwdStep]
          exact getD_set_self _ _ _ (by omega)
        have e2 : (fwdStep rx ry s (m+1)).x.getD (m+1) 0
            = rx.getD (m+1) 0 - s.x.getD m 0
                / (s.bb.set (m+1) (4 - 1/s.bb.getD m 0)).getD m 0 := by
          simp only [fwdStep, Nat.add_sub_cancel]
          exact getD_set_self _ _ _ (by omega)
        have e3 : (fwdStep rx ry s (m+1)).y.getD (m+1) 0
            = ry.getD (m+1) 0 - s.y.getD m 0
                / (s.bb.set (m+1) (4 - 1/s.bb.getD m 0)).getD m 0 := by
          simp only [fwdStep, Nat.add_sub_cancel]
          exact getD_set_self _ _ _ (by omega)
        have e4 : (fwdStep rx ry s (m+1)).z.getD (m+1) 0
            = 0 - s.z.getD m 0
                / (s.bb.set (m+1) (4 - 1/s.bb.getD m 0)).getD m 0 := by
          simp only [fwdStep, Nat.add_sub_cancel]
          exact getD_set_self _ _ _ (by omega)
        refine ⟨?_, ?_, ?_, ?_⟩
        · rw [e1, b1]; rfl
        · rw [e2, hbbm, b1, x1]; rfl
        · rw [e3, hbbm, b1, y1]; rfl
        · rw [e4, hbbm, b1, z1]
          show _ = fwdVal cyclic zRaw (m + 1)
          simp [fwdVal, zRaw]

lemma pyGet_sub_one (l : List ℚ) {n : ℕ} (h : 1 ≤ n) :
    pyGet l ((n : ℤ) - 1) = l.getD (n - 1) 0 := by
  have e : (n : ℤ) - 1 = ((n - 1 : ℕ) : ℤ) := by omega
  rw [e, pyGet_natCast]

lemma pyGet_sub_two (l : List ℚ) {n : ℕ} (h : 2 ≤ n) :
    pyGet l ((n : ℤ) - 2) = l.getD (n - 2) 0 := by
  have e : (n : ℤ) - 2 = ((n - 2 : ℕ) : ℤ) := by omega
  rw [e, pyGet_natCast]

lemma pySet_sub_one (l : List ℚ) {n : ℕ} (h : 1 ≤ n) (v : ℚ) :
    pySet l ((n : ℤ) - 1) v = l.set (n - 1) v := by
  have e : (n : ℤ) - 1 = ((n - 1 : ℕ) : ℤ) := by omega
  rw [e, pySet_natCast]

lemma solveCore_eq_backSub (rx ry : List ℚ) (cyclic : Bool) :
    solveCore rx ry cyclic = backSub rx.length (preBack rx ry cyclic) := rfl

/-- The last row rewrites each vector by a single `set` at index `n-1`. -/
lemma lastRow_eq (rx ry : List ℚ) (cyclic : Bool) (s : SV) (hn : 2 ≤ rx.length)
    (hlen : SVlen rx.length s) :
    lastRow rx ry cyclic s =
      { x := s.x.set (rx.length - 1)
          ((rx.getD (rx.length - 1) 0 -
            aLast cyclic * s.x.getD (rx.length - 2) 0 / s.bb.getD (rx.length - 2) 0) /
           (bLast cyclic - aLast cyclic / s.bb.getD (rx.length - 2) 0))
        y := s.y.set (rx.length - 1)
          ((ry.getD (rx.length - 1) 0 -
            aLast cyclic * s.y.getD (rx.length - 2) 0 / s.bb.getD (rx.length - 2) 0) /
           (bLast cyclic - aLast cyclic / s.bb.getD (rx.length - 2) 0))
        z := s.z.set (rx.length - 1)
          ((1 - s.z.getD (rx.length - 2) 0 / s.bb.getD (rx.length - 2) 0) /
           (bLast cyclic - aLast cyclic / s.bb.getD (rx.length - 2) 0))
        bb := s.bb.set (rx.length - 1)
          (bLast cyclic - aLast cyclic / s.bb.getD (rx.length - 2) 0) } := by
  obtain ⟨hx, hy, hz, hbb⟩ := hlen
  have h1 : 1 ≤ rx.length := by omega
  have hne : rx.length - 1 ≠ rx.length - 2 := by omega
  have ha : (if cyclic then (1:ℚ) else 2) = aLast cyclic := rfl
  have hb : (if cyclic then (3:ℚ) else 7) = bLast cyclic := rfl
  simp only [lastRow, ha, hb]
  rw [pyGet_sub_two s.bb hn, pySet_sub_one s.bb h1,
    pyGet_sub_two (s.bb.set (rx.length - 1) _) hn,
    getD_set_ne s.bb _ hne,
    pyGet_sub_one rx h1, pyGet_sub_two s.x hn, pySet_sub_one s.x h1,
    pyGet_sub_one ry h1, pyGet_sub_two s.y hn, pySet_sub_one s.y h1,
    pyGet_sub_two s.z hn, pySet_sub_one s.z h1]
  rw [pyGet_sub_one (s.x.set (rx.length - 1) _) h1,
    pyGet_sub_one (s.bb.set (rx.length - 1) _) h1,
    pySet_sub_one (s.x.set (rx.length - 1) _) h1,
    pyGet_sub_one (s.y.set (rx.length - 1) _) h1,
    pySet_sub_one (s.y.set (rx.length - 1) _) h1,
    pyGet_sub_one (s.z.set (rx.length - 1) _) h1,
    pySet_sub_one (s.z.set (rx.length - 1) _) h1]
  rw [getD_set_self s.x _ _ (by omega), getD_set_self s.y _ _ (by omega),
    getD_set_self s.z _ _ (by omega), getD_set_self s.bb _ _ (by omega)]
  simp only [List.set_set]

lemma preBack_spec (rx ry : List ℚ) (cyclic : Bool) (hn : 2 ≤ rx.length) :
    SVlen rx.length (preBack rx ry cyclic) ∧
    (∀ j, j ≤ rx.length - 2 →
      (preBack rx ry cyclic).bb.getD j 0 = bbClaim cyclic j ∧
      (preBack rx ry cyclic).x.getD j 0 = fwdVal cyclic (fun i => rx.getD i 0) j ∧
      (preBack rx ry cyclic).y.getD j 0 = fwdVal cyclic (fun i => ry.getD i 0) j ∧
      (preBack rx ry cyclic).z.getD j 0 = fwdVal cyclic zRaw j) ∧
    (preBack rx ry cyclic).bb.getD (rx.length - 1) 0 = bbLast cyclic rx.length ∧
    (preBack rx ry cyclic).x.getD (rx.length - 1) 0
      = lastVal cyclic rx.length (fun i => rx.getD i 0) ∧
    (preBack rx ry cyclic).y.getD (rx.length - 1) 0
      = lastVal cyclic rx.length (fun i => ry.getD i 0) ∧
    (preBack rx ry cyclic).z.getD (rx.length - 1) 0 = zLastVal cyclic rx.length := by
  obtain ⟨hlen, hval⟩ := fwdRun_ok rx ry cyclic hn (rx.length - 2) le_rfl
  have hpre : preBack rx ry cyclic
      = lastRow rx ry cyclic (fwdRun rx ry cyclic (rx.length - 2)) := by
    unfold preBack
    rw [fwdSweep_eq_fwdRun]
  set s := fwdRun rx ry cyclic (rx.length - 2) with hs
  obtain ⟨hx, hy, hz, hbb⟩ := hlen
  obtain ⟨b2, x2, y2, z2⟩ := hval (rx.length - 2) le_rfl
  rw [hpre, lastRow_eq rx ry cyclic s hn ⟨hx, hy, hz, hbb⟩]
  have hlt : rx.length - 1 < rx.length := by omega
  refine ⟨⟨by simpa using hx, by simpa using hy, by simpa using hz, by simpa using hbb⟩,
    ?_, ?_, ?_, ?_, ?_⟩
  · intro j hj
    have hne : rx.length - 1 ≠ j := by omega
    obtain ⟨b1, x1, y1, z1⟩ := hval j hj
    exact ⟨by rw [getD_set_ne _ _ hne, b1], by rw [getD_set_ne _ _ hne, x1],
      by rw [getD_set_ne _ _ hne, y1], by rw [getD_set_ne _ _ hne, z1]⟩
  · rw [getD_set_self _ _ _ (by simpa [hbb] using hlt), b2]
    rfl
  · rw [getD_set_self _ _ _ (by simpa [hx] using hlt), b2, x2]
    rfl
  · rw [getD_set_self _ _ _ (by simpa [hy] using hlt), b2, y2]
    rfl
  · rw [getD_set_self _ _ _ (by simpa [hz] using hlt), b2, z2]
    rfl

/-- One step of back-substitution in recurrence form. -/
lemma specVal_step (cyclic : Bool) (n : ℕ) (r : ℕ → ℚ) (m : ℕ)
    (h1 : m + 1 ≤ n - 1) (h2 : 2 ≤ n) :
    specVal cyclic n r m
      = (fwdVal cyclic r m - specVal cyclic n r (m + 1)) / bbClaim cyclic m := by
  have e1 : n - 1 - m = (n - 2 - m) + 1 := by omega
  have e2 : n - 2 - (n - 2 - m) = m := by omega
  have e3 : n - 1 - (m + 1) = n - 2 - m := by omega
  unfold specVal
  rw [e1, e3]
  show (fwdVal cyclic r (n - 2 - (n - 2 - m)) - _) / bbClaim cyclic (n - 2 - (n - 2 - m)) = _
  rw [e2]

/-- The analogous step for the auxiliary vector. -/
lemma specZVal_step (cyclic : Bool) (n : ℕ) (m : ℕ)
    (h1 : m + 1 ≤ n - 1) (h2 : 2 ≤ n) :
    specZVal cyclic n m
      = (fwdVal cyclic zRaw m - specZVal cyclic n (m + 1)) / bbClaim cyclic m := by
  have e1 : n - 1 - m = (n - 2 - m) + 1 := by omega
  have e2 : n - 2 - (n - 2 - m) = m := by omega
  have e3 : n - 1 - (m + 1) = n - 2 - m := by omega
  unfold specZVal
  rw [e1, e3]
  show (fwdVal cyclic zRaw (n - 2 - (n - 2 - m)) - _) / bbClaim cyclic (n - 2 - (n - 2 - m)) = _
  rw [e2]

/-- Invariant of the back-substitution loop, processed downwards from row
`n-2`: rows `≥ m` hold final values, rows `< m` still hold forward values. -/
lemma backRun_spec (rx ry : List ℚ) (cyclic : Bool) (hn : 2 ≤ rx.length) :
    ∀ (m : ℕ) (s : SV), m ≤ rx.length - 1 → SVlen rx.length s →
      (∀ j, j ≤ rx.length - 2 → s.bb.getD j 0 = bbClaim cyclic j) →
      (∀ j, j < m → s.x.getD j 0 = fwdVal cyclic (fun i => rx.getD i 0) j) →
      (∀ j, m ≤ j → j < rx.length →
        s.x.getD j 0 = specVal cyclic rx.length (fun i => rx.getD i 0) j) →
      (∀ j, j < m → s.y.getD j 0 = fwdVal cyclic (fun i => ry.getD i 0) j) →
      (∀ j, m ≤ j → j < rx.length →
        s.y.getD j 0 = specVal cyclic rx.length (fun i => ry.getD i 0) j) →
      (∀ j, j < m → s.z.getD j 0 = fwdVal cyclic zRaw j) →
      (∀ j, m ≤ j → j < rx.length → s.z.getD j 0 = specZVal cyclic rx.length j) →
      SVlen rx.length (((List.range m).reverse).foldl backStep s) ∧
      (((List.range m).reverse).foldl backStep s).bb = s.bb ∧
      (∀ j, j < rx.length →
        (((List.range m).reverse).foldl backStep s).x.getD j 0
          = specVal cyclic rx.length (fun i => rx.getD i 0) j) ∧
      (∀ j, j < rx.length →
        (((List.range m).reverse).foldl backStep s).y.getD j 0
          = specVal cyclic rx.length (fun i => ry.getD i 0) j) ∧
      (∀ j, j < rx.length →
        (((List.range m).reverse).foldl backStep s).z.getD j 0
          = specZVal cyclic rx.length j) := by
  intro m
  induction m with
  | zero =>
    intro s _ hlen hbb _ hx2 _ hy2 _ hz2
    refine ⟨by simpa using hlen, rfl, ?_, ?_, ?_⟩ <;>
      · intro j hj
        first
        | exact hx2 j (Nat.zero_le j) hj
        | exact hy2 j (Nat.zero_le j) hj
        | exact hz2 j (Nat.zero_le j) hj
  | succ m ih =>
    intro s hm hlen hbb hx1 hx2 hy1 hy2 hz1 hz2
    obtain ⟨hx, hy, hz, hb⟩ := hlen
    have hstep : ((List.range (m+1)).reverse).foldl backStep s
        = ((List.range m).reverse).foldl backStep (backStep s m) := by
      rw [List.range_succ, List.reverse_append]
      rfl
    have hmn : m < rx.length - 1 := by omega
    have hm1 : m + 1 < rx.length := by omega
    have hbbm : s.bb.getD m 0 = bbClaim cyclic m := hbb m (by omega)
    have hxm : s.x.getD m 0 = fwdVal cyclic (fun i => rx.getD i 0) m := hx1 m (by omega)
    have hxm1 : s.x.getD (m+1) 0 = specVal cyclic rx.length (fun i => rx.getD i 0) (m+1) :=
      hx2 (m+1) (by omega) hm1
    have hym : s.y.getD m 0 = fwdVal cyclic (fun i => ry.getD i 0) m := hy1 m (by omega)
    have hym1 : s.y.getD (m+1) 0 = specVal cyclic rx.length (fun i => ry.getD i 0) (m+1) :=
      hy2 (m+1) (by omega) hm1
    have hzm : s.z.getD m 0 = fwdVal cyclic zRaw m := hz1 m (by omega)
    have hzm1 : s.z.getD (m+1) 0 = specZVal cyclic rx.length (m+1) :=
      hz2 (m+1) (by omega) hm1
    have hxv : (backStep s m).x.getD m 0
        = specVal cyclic rx.length (fun i => rx.getD i 0) m := by
      simp only [backStep]
      rw [getD_set_self _ _ _ (by omega), hxm, hxm1, hbbm,
        specVal_step cyclic rx.length _ m (by omega) hn]
    have hyv : (backStep s m).y.getD m 0
        = specVal cyclic rx.length (fun i => ry.getD i 0) m := by
      simp only [backStep]
      rw [getD_set_self _ _ _ (by omega), hym, hym1, hbbm,
        specVal_step cyclic rx.length _ m (by omega) hn]
    have hzv : (backStep s m).z.getD m 0 = specZVal cyclic rx.length m := by
      simp only [backStep]
      rw [getD_set_self _ _ _ (by omega), hzm, hzm1, hbbm,
        specZVal_step cyclic rx.length m (by omega) hn]
    have hlen' : SVlen rx.length (backStep s m) := SVlen_backStep ⟨hx, hy, hz, hb⟩ m
    have hbb' : (backStep s m).bb = s.bb := rfl
    rw [hstep]
    have := ih (backStep s m) (by omega) hlen'
      (by intro j hj; rw [hbb']; exact hbb j hj)
      (by
        intro j hj
        simp only [backStep]
        rw [getD_set_ne _ _ (by omega : m ≠ j)]
        exact hx1 j (by omega))
      (by
        intro j hj1 hj2
        rcases Nat.eq_or_lt_of_le hj1 with he | hl
        · rw [← he]; exact hxv
        · simp only [backStep]
          rw [getD_set_ne _ _ (by omega : m ≠ j)]
          exact hx2 j (by omega) hj2)
      (by
        intro j hj
        simp only [backStep]
        rw [getD_set_ne _ _ (by omega : m ≠ j)]
        exact hy1 j (by omega))
      (by
        intro j hj1 hj2
        rcases Nat.eq_or_lt_of_le hj1 with he | hl
        · rw [← he]; exact hyv
        · simp only [backStep]
          rw [getD_set_ne _ _ (by omega : m ≠ j)]
          exact hy2 j (by omega) hj2)
      (by
        intro j hj
        simp only [backStep]
        rw [getD_set_ne _ _ (by omega : m ≠ j)]
        exact hz1 j (by omega))
      (by
        intro j hj1 hj2
        rcases Nat.eq_or_lt_of_le hj1 with he | hl
        · rw [← he]; exact hzv
        · simp only [backStep]
          rw [getD_set_ne _ _ (by omega : m ≠ j)]
          exact hz2 j (by omega) hj2)
    obtain ⟨l1, l2, l3, l4, l5⟩ := this
    exact ⟨l1, by rw [l2, hbb'], l3, l4, l5⟩

/-- Full characterisation of `solveCore` for systems of size at least 2. -/
lemma solveCore_spec (rx ry : List ℚ) (cyclic : Bool) (hn : 2 ≤ rx.length) :
    SVlen rx.length (solveCore rx ry cyclic) ∧
    (∀ j, j < rx.length →
      (solveCore rx ry cyclic).x.getD j 0
        = specVal cyclic rx.length (fun i => rx.getD i 0) j ∧
      (solveCore rx ry cyclic).y.getD j 0
        = specVal cyclic rx.length (fun i => ry.getD i 0) j ∧
      (solveCore rx ry cyclic).z.getD j 0 = specZVal cyclic rx.length j ∧
      (solveCore rx ry cyclic).bb.getD j 0 = bbSpecVal cyclic rx.length j) := by
  obtain ⟨hlen, hmid, hbbl, hxl, hyl, hzl⟩ := preBack_spec rx ry cyclic hn
  have hform : ∀ j, rx.length - 1 ≤ j → j < rx.length → j = rx.length - 1 := by omega
  have hlast : ∀ j, rx.length - 1 ≤ j → j < rx.length →
      (preBack rx ry cyclic).x.getD j 0
        = specVal cyclic rx.length (fun i => rx.getD i 0) j ∧
      (preBack rx ry cyclic).y.getD j 0
        = specVal cyclic rx.length (fun i => ry.getD i 0) j ∧
      (preBack rx ry cyclic).z.getD j 0 = specZVal cyclic rx.length j := by
    intro j h1 h2
    rw [hform j h1 h2]
    have e : rx.length - 1 - (rx.length - 1) = 0 := by omega
    refine ⟨?_, ?_, ?_⟩ <;>
      simp only [specVal, specZVal, e, backAux]
    · exact hxl
    · exact hyl
    · exact hzl
  have := backRun_spec rx ry cyclic hn (rx.length - 1) (preBack rx ry cyclic)
    le_rfl hlen
    (fun j hj => (hmid j hj).1)
    (fun j hj => (hmid j (by omega)).2.1)
    (fun j h1 h2 => (hlast j h1 h2).1)
    (fun j hj => (hmid j (by omega)).2.2.1)
    (fun j h1 h2 => (hlast j h1 h2).2.1)
    (fun j hj => (hmid j (by omega)).2.2.2)
    (fun j h1 h2 => (hlast j h1 h2).2.2)
  obtain ⟨l1, l2, l3, l4, l5⟩ := this
  have hcore : solveCore rx ry cyclic
      = ((List.range (rx.length - 1)).reverse).foldl backStep (preBack rx ry cyclic) := by
    rw [solveCore_eq_backSub]
    rfl
  constructor
  · rw [hcore]; exact l1
  · intro j hj
    refine ⟨by rw [hcore]; exact l3 j hj, by rw [hcore]; exact l4 j hj,
      by rw [hcore]; exact l5 j hj, ?_⟩
    rw [hcore, l2]
    unfold bbSpecVal
    by_cases he : j = rx.length - 1
    · rw [if_pos he, he, hbbl]
    · rw [if_neg he]
      exact (hmid j (by omega)).1

/-- Invariant of the correction loop: rows `< m` corrected, rows `≥ m`
untouched; `z` and `bb` never change. -/
lemma corrRun_spec (fx fy : ℚ) (n : ℕ) :
    ∀ (m : ℕ) (s : SV), SVlen n s → m ≤ n →
      SVlen n ((List.range m).foldl (corrStep fx fy) s) ∧
      ((List.range m).foldl (corrStep fx fy) s).z = s.z ∧
      ((List.range m).foldl (corrStep fx fy) s).bb = s.bb ∧
      (∀ j, j < m →
        ((List.range m).foldl (corrStep fx fy) s).x.getD j 0
          = s.x.getD j 0 - fx * s.z.getD j 0 ∧
        ((List.range m).foldl (corrStep fx fy) s).y.getD j 0
          = s.y.getD j 0 - fy * s.z.getD j 0) ∧
      (∀ j, m ≤ j →
        ((List.range m).foldl (corrStep fx fy) s).x.getD j 0 = s.x.getD j 0 ∧
        ((List.range m).foldl (corrStep fx fy) s).y.getD j 0 = s.y.getD j 0) := by
  intro m
  induction m with
  | zero =>
    intro s hlen _
    exact ⟨by simpa using hlen, rfl, rfl, fun j hj => absurd hj (by omega),
      fun j _ => ⟨rfl, rfl⟩⟩
  | succ m ih =>
    intro s hlen hm
    obtain ⟨h1, h2, h3, h4, h5⟩ := ih s hlen (by omega)
    set T := (List.range m).foldl (corrStep fx fy) s with hT
    have hstep : (List.range (m+1)).foldl (corrStep fx fy) s = corrStep fx fy T m := by
      rw [List.range_succ, List.foldl_append]
      rfl
    obtain ⟨e1, e2, e3, e4⟩ := h1
    have hmlt : m < n := by omega
    have hTx : T.x.getD m 0 = s.x.getD m 0 := (h5 m le_rfl).1
    have hTy : T.y.getD m 0 = s.y.getD m 0 := (h5 m le_rfl).2
    rw [hstep]
    refine ⟨SVlen_corrStep fx fy ⟨e1, e2, e3, e4⟩ m, by simp only [corrStep]; exact h2,
      by simp only [corrStep]; exact h3, ?_, ?_⟩
    · intro j hj
      rcases Nat.lt_or_ge j m with hl | hg
      · have hne : m ≠ j := by omega
        constructor
        · simp only [corrStep]
          rw [getD_set_ne _ _ hne]
          exact (h4 j hl).1
        · simp only [corrStep]
          rw [getD_set_ne _ _ hne]
          exact (h4 j hl).2
      · have he : j = m := by omega
        subst he
        constructor
        · simp only [corrStep]
          rw [getD_set_self _ _ _ (by omega), hTx, h2]
        · simp only [corrStep]
          rw [getD_set_self _ _ _ (by omega), hTy, h2]
    · intro j hj
      have hne : m ≠ j := by omega
      constructor
      · simp only [corrStep]
        rw [getD_set_ne _ _ hne]
        exact (h5 j (by omega)).1
      · simp only [corrStep]
        rw [getD_set_ne _ _ hne]
        exact (h5 j (by omega)).2

/-- The cyclic correction computes exactly the Sherman–Morrison update of
the back-substituted state. -/
lemma cyclicCorrect_spec (n : ℕ) (s : SV) (h : SVlen n s) :
    SVlen n (cyclicCorrect n s) ∧
    (cyclicCorrect n s).z = s.z ∧ (cyclicCorrect n s).bb = s.bb ∧
    (∀ j, j < n →
      (cyclicCorrect n s).x.getD j 0
        = s.x.getD j 0 -
          (s.x.getD 0 0 + s.x.getD (n-1) 0) / (1 + s.z.getD 0 0 + s.z.getD (n-1) 0)
            * s.z.getD j 0 ∧
      (cyclicCorrect n s).y.getD j 0
        = s.y.getD j 0 -
          (s.y.getD 0 0 + s.y.getD (n-1) 0) / (1 + s.z.getD 0 0 + s.z.getD (n-1) 0)
            * s.z.getD j 0) := by
  obtain ⟨l1, l2, l3, l4, l5⟩ :=
    corrRun_spec ((s.x.getD 0 0 + s.x.getD (n-1) 0) / (1 + s.z.getD 0 0 + s.z.getD (n-1) 0))
      ((s.y.getD 0 0 + s.y.getD (n-1) 0) / (1 + s.z.getD 0 0 + s.z.getD (n-1) 0))
      n n s h le_rfl
  exact ⟨l1, l2, l3, fun j hj => l4 j hj⟩

lemma solve_false_eq (rx ry : List ℚ) :
    solve rx ry false = ((solveCore rx ry false).x, (solveCore rx ry false).y) := rfl

lemma solve_true_eq (rx ry : List ℚ) :
    solve rx ry true
      = ((cyclicCorrect rx.length (solveCore rx ry true)).x,
         (cyclicCorrect rx.length (solveCore rx ry true)).y) := rfl

/-! Characterisation of the coefficient and control-point assembly. -/

/-- Folds that write `g i` at index `i` for `i ∈ range m`. -/
lemma foldl_set_range (g : ℕ → ℚ) :
    ∀ (m : ℕ) (a : List ℚ),
      ((List.range m).foldl (fun a i => a.set i (g i)) a).length = a.length ∧
      (∀ i, i < m → i < a.length →
        ((List.range m).foldl (fun a i => a.set i (g i)) a).getD i 0 = g i) ∧
      (∀ i, m ≤ i →
        ((List.range m).foldl (fun a i => a.set i (g i)) a).getD i 0 = a.getD i 0) := by
  intro m
  induction m with
  | zero => intro a; exact ⟨rfl, fun i h => absurd h (by omega), fun i _ => rfl⟩
  | succ m ih =>
    intro a
    obtain ⟨l1, l2, l3⟩ := ih a
    have hstep : (List.range (m+1)).foldl (fun a i => a.set i (g i)) a
        = ((List.range m).foldl (fun a i => a.set i (g i)) a).set m (g m) := by
      rw [List.range_succ, List.foldl_append]
      rfl
    refine ⟨by rw [hstep]; simpa using l1, ?_, ?_⟩
    · intro i hi hia
      rw [hstep]
      rcases Nat.lt_or_ge i m with hl | hg
      · rw [getD_set_ne _ _ (by omega)]
        exact l2 i hl hia
      · have he : i = m := by omega
        subst he
        rw [getD_set_self _ _ _ (by rw [l1]; exact hia)]
    · intro i hi
      rw [hstep, getD_set_ne _ _ (by omega)]
      exact l3 i (by omega)

/-- Folds that write `g i` at index `i` for `i ∈ range' 1 m`. -/
lemma foldl_set_range' (g : ℕ → ℚ) :
    ∀ (m : ℕ) (a : List ℚ),
      ((List.range' 1 m).foldl (fun a i => a.set i (g i)) a).length = a.length ∧
      (∀ i, 1 ≤ i → i ≤ m → i < a.length →
        ((List.range' 1 m).foldl (fun a i => a.set i (g i)) a).getD i 0 = g i) ∧
      (∀ i, i = 0 ∨ m < i →
        ((List.range' 1 m).foldl (fun a i => a.set i (g i)) a).getD i 0 = a.getD i 0) := by
  intro m
  induction m with
  | zero => intro a; exact ⟨rfl, fun i h1 h2 => absurd (h1.trans h2) (by omega), fun i _ => rfl⟩
  | succ m ih =>
    intro a
    obtain ⟨l1, l2, l3⟩ := ih a
    have hstep : (List.range' 1 (m+1)).foldl (fun a i => a.set i (g i)) a
        = ((List.range' 1 m).foldl (fun a i => a.set i (g i)) a).set (1+m) (g (1+m)) := by
      rw [List.range'_1_concat, List.foldl_append]
      rfl
    refine ⟨by rw [hstep]; simpa using l1, ?_, ?_⟩
    · intro i h1 h2 h3
      rw [hstep]
      rcases Nat.lt_or_ge i (1+m) with hl | hg
      · rw [getD_set_ne _ _ (by omega)]
        exact l2 i h1 (by omega) h3
      · have he : i = 1 + m := by omega
        subst he
        rw [getD_set_self _ _ _ (by rw [l1]; exact h3)]
    · intro i hi
      rw [hstep, getD_set_ne _ _ (by omega)]
      exact l3 i (by omega)

lemma rAssemble_length (f : ℚ × ℚ → ℚ) (K : List (ℚ × ℚ)) (n : ℕ) (cyclic : Bool) :
    (rAssemble f K n cyclic).length = n := by
  cases cyclic with
  | true =>
    have := (foldl_set_range
      (fun i => 4 * f (K.getD i (0,0)) + 2 * f (K.getD ((i+1) % n) (0,0))) n
      (List.replicate n 0)).1
    simpa [rAssemble] using this
  | false =>
    have := (foldl_set_range'
      (fun i => 4 * f (K.getD i (0,0)) + 2 * f (K.getD (i+1) (0,0))) (n-2)
      ((List.replicate n (0:ℚ)).set 0 (f (K.getD 0 (0,0)) + 2 * f (K.getD 1 (0,0))))).1
    simpa [rAssemble] using this

lemma rAssemble_cyclic_getD (f : ℚ × ℚ → ℚ) (K : List (ℚ × ℚ)) (n : ℕ)
    {i : ℕ} (h : i < n) :
    (rAssemble f K n true).getD i 0
      = 4 * f (K.getD i (0,0)) + 2 * f (K.getD ((i+1) % n) (0,0)) := by
  have := (foldl_set_range
    (fun i => 4 * f (K.getD i (0,0)) + 2 * f (K.getD ((i+1) % n) (0,0))) n
    (List.replicate n 0)).2.1 i h (by simpa using h)
  simpa [rAssemble] using this

lemma rAssemble_noncyclic_unfold (f : ℚ × ℚ → ℚ) (K : List (ℚ × ℚ)) (n : ℕ) :
    rAssemble f K n false
      = ((List.range' 1 (n-2)).foldl
          (fun a i => a.set i (4 * f (K.getD i (0,0)) + 2 * f (K.getD (i+1) (0,0))))
          ((List.replicate n (0:ℚ)).set 0
            (f (K.getD 0 (0,0)) + 2 * f (K.getD 1 (0,0))))).set (n-1)
          (8 * f (K.getD (n-1) (0,0)) + f (K.getD n (0,0))) := by
  simp [rAssemble]

lemma rAssemble_noncyclic_mid (f : ℚ × ℚ → ℚ) (K : List (ℚ × ℚ)) (n : ℕ)
    {i : ℕ} (h1 : 1 ≤ i) (h2 : i ≤ n - 2) (hn : 2 ≤ n) :
    (rAssemble f K n false).getD i 0
      = 4 * f (K.getD i (0,0)) + 2 * f (K.getD (i+1) (0,0)) := by
  obtain ⟨l1, l2, l3⟩ := foldl_set_range'
    (fun i => 4 * f (K.getD i (0,0)) + 2 * f (K.getD (i+1) (0,0))) (n-2)
    ((List.replicate n (0:ℚ)).set 0 (f (K.getD 0 (0,0)) + 2 * f (K.getD 1 (0,0))))
  rw [rAssemble_noncyclic_unfold, getD_set_ne _ _ (by omega)]
  exact l2 i h1 h2 (by simpa using by omega)

lemma rAssemble_noncyclic_first (f : ℚ × ℚ → ℚ) (K : List (ℚ × ℚ)) (n : ℕ)
    (hn : 2 ≤ n) :
    (rAssemble f K n false).getD 0 0
      = f (K.getD 0 (0,0)) + 2 * f (K.getD 1 (0,0)) := by
  obtain ⟨l1, l2, l3⟩ := foldl_set_range'
    (fun i => 4 * f (K.getD i (0,0)) + 2 * f (K.getD (i+1) (0,0))) (n-2)
    ((List.replicate n (0:ℚ)).set 0 (f (K.getD 0 (0,0)) + 2 * f (K.getD 1 (0,0))))
  rw [rAssemble_noncyclic_unfold, getD_set_ne _ _ (by omega), l3 0 (Or.inl rfl),
    getD_set_self _ _ _ (by simpa using by omega)]

lemma rAssemble_noncyclic_last (f : ℚ × ℚ → ℚ) (K : List (ℚ × ℚ)) (n : ℕ)
    (hn : 1 ≤ n) :
    (rAssemble f K n false).getD (n-1) 0
      = 8 * f (K.getD (n-1) (0,0)) + f (K.getD n (0,0)) := by
  have hlen : ((List.range' 1 (n-2)).foldl
      (fun a i => a.set i (4 * f (K.getD i (0,0)) + 2 * f (K.getD (i+1) (0,0))))
      ((List.replicate n (0:ℚ)).set 0
        (f (K.getD 0 (0,0)) + 2 * f (K.getD 1 (0,0))))).length = n := by
    have := (foldl_set_range'
      (fun i => 4 * f (K.getD i (0,0)) + 2 * f (K.getD (i+1) (0,0))) (n-2)
      ((List.replicate n (0:ℚ)).set 0 (f (K.getD 0 (0,0)) + 2 * f (K.getD 1 (0,0))))).1
    simpa using this
  rw [rAssemble_noncyclic_unfold, getD_set_self _ _ _ (by omega)]

lemma qAssemble_length (f : ℚ × ℚ → ℚ) (K : List (ℚ × ℚ)) (P : List ℚ) (n : ℕ)
    (cyclic : Bool) : (qAssemble f K P n cyclic).length = n := by
  have := (foldl_set_range
    (fun i => 2 * f (K.getD (i+1) (0,0)) - P.getD (i+1) 0) (n-1)
    (List.replicate n 0)).1
  cases cyclic <;> simpa [qAssemble] using this

lemma qAssemble_unfold (f : ℚ × ℚ → ℚ) (K : List (ℚ × ℚ)) (P : List ℚ) (n : ℕ)
    (cyclic : Bool) :
    qAssemble f K P n cyclic
      = if cyclic then
          ((List.range (n-1)).foldl
            (fun a i => a.set i (2 * f (K.getD (i+1) (0,0)) - P.getD (i+1) 0))
            (List.replicate n (0:ℚ))).set (n-1) (2 * f (K.getD 0 (0,0)) - P.getD 0 0)
        else
          ((List.range (n-1)).foldl
            (fun a i => a.set i (2 * f (K.getD (i+1) (0,0)) - P.getD (i+1) 0))
            (List.replicate n (0:ℚ))).set (n-1)
            ((f (K.getD n (0,0)) + P.getD (n-1) 0) / 2) := rfl

lemma qAssemble_getD_mid (f : ℚ × ℚ → ℚ) (K : List (ℚ × ℚ)) (P : List ℚ) (n : ℕ)
    (cyclic : Bool) {i : ℕ} (h : i < n - 1) :
    (qAssemble f K P n cyclic).getD i 0
      = 2 * f (K.getD (i+1) (0,0)) - P.getD (i+1) 0 := by
  obtain ⟨l1, l2, l3⟩ := foldl_set_range
    (fun i => 2 * f (K.getD (i+1) (0,0)) - P.getD (i+1) 0) (n-1)
    (List.replicate n (0:ℚ))
  have hval := l2 i h (by simpa using by omega)
  rw [qAssemble_unfold]
  cases cyclic with
  | true =>
    rw [if_pos rfl, getD_set_ne _ _ (by omega)]
    exact hval
  | false =>
    rw [if_neg (by simp), getD_set_ne _ _ (by omega)]
    exact hval

lemma qAssemble_getD_last_cyclic (f : ℚ × ℚ → ℚ) (K : List (ℚ × ℚ)) (P : List ℚ)
    (n : ℕ) (hn : 1 ≤ n) :
    (qAssemble f K P n true).getD (n-1) 0
      = 2 * f (K.getD 0 (0,0)) - P.getD 0 0 := by
  have hlen := (foldl_set_range
    (fun i => 2 * f (K.getD (i+1) (0,0)) - P.getD (i+1) 0) (n-1)
    (List.replicate n (0:ℚ))).1
  rw [qAssemble_unfold, if_pos rfl, getD_set_self _ _ _ (by simp at hlen ⊢; omega)]

lemma qAssemble_getD_last_noncyclic (f : ℚ × ℚ → ℚ) (K : List (ℚ × ℚ)) (P : List ℚ)
    (n : ℕ) (hn : 1 ≤ n) :
    (qAssemble f K P n false).getD (n-1) 0
      = (f (K.getD n (0,0)) + P.getD (n-1) 0) / 2 := by
  have hlen := (foldl_set_range
    (fun i => 2 * f (K.getD (i+1) (0,0)) - P.getD (i+1) 0) (n-1)
    (List.replicate n (0:ℚ))).1
  rw [qAssemble_unfold, if_neg (by simp), getD_set_self _ _ _ (by simp at hlen ⊢; omega)]

lemma spline_length (points : List (ℚ × ℚ)) (cyclic : Bool) :
    (spline_through points cyclic).length = segCount points cyclic := by
  simp [spline_through]

lemma spline_getD (points : List (ℚ × ℚ)) (cyclic : Bool) {i : ℕ}
    (h : i < segCount points cyclic) :
    (spline_through points cyclic).getD i seg0
      = { k0 := (knotsOf points).getD i (0,0)
          p := ((POf points cyclic).1.getD i 0, (POf points cyclic).2.getD i 0)
          q := ((QxOf points cyclic).getD i 0, (QyOf points cyclic).getD i 0)
          k1 := (knotsOf points).getD
            (if cyclic then (i+1) % segCount points cyclic else i+1) (0,0) } := by
  have hr : (List.range (segCount points cyclic))[i]? = some i := List.getElem?_range h
  simp only [spline_through, List.getD_eq_getElem?_getD, List.getElem?_map, hr,
    Option.map_some', Option.getD_some]

lemma knotsOf_length (points : List (ℚ × ℚ)) :
    (knotsOf points).length = points.length := by
  simp [knotsOf]

lemma knotsOf_getD (points : List (ℚ × ℚ)) {i : ℕ} (h : i < points.length) :
    (knotsOf points).getD i (0,0)
      = ((points.getD i (0,0)).1 * scaleConst, (points.getD i (0,0)).2 * scaleConst) := by
  have hp : points[i]? = some (points.get ⟨i, h⟩) := List.getElem?_eq_getElem h
  simp [knotsOf, List.getD_eq_getElem?_getD, hp]

/-- Pointwise description of `solve`'s output in spec terms. -/
lemma solve_getD_spec (rx ry : List ℚ) (cyclic : Bool) (hn : 2 ≤ rx.length)
    {j : ℕ} (hj : j < rx.length) :
    (solve rx ry cyclic).1.getD j 0
      = solSpec cyclic rx.length (fun i => rx.getD i 0) j ∧
    (solve rx ry cyclic).2.getD j 0
      = solSpec cyclic rx.length (fun i => ry.getD i 0) j := by
  obtain ⟨hlen, hval⟩ := solveCore_spec rx ry cyclic hn
  have h0 : (0:ℕ) < rx.length := by omega
  have hl : rx.length - 1 < rx.length := by omega
  cases cyclic with
  | false =>
    rw [solve_false_eq]
    exact ⟨by simpa [solSpec] using (hval j hj).1, by simpa [solSpec] using (hval j hj).2.1⟩
  | true =>
    rw [solve_true_eq]
    obtain ⟨c1, c2, c3, c4⟩ := cyclicCorrect_spec rx.length (solveCore rx ry true) hlen
    have hx := (c4 j hj).1
    have hy := (c4 j hj).2
    rw [show ((cyclicCorrect rx.length (solveCore rx ry true)).x,
          (cyclicCorrect rx.length (solveCore rx ry true)).y).1
        = (cyclicCorrect rx.length (solveCore rx ry true)).x from rfl,
      show ((cyclicCorrect rx.length (solveCore rx ry true)).x,
          (cyclicCorrect rx.length (solveCore rx ry true)).y).2
        = (cyclicCorrect rx.length (solveCore rx ry true)).y from rfl, hx, hy]
    rw [(hval j hj).1, (hval j hj).2.1, (hval j hj).2.2.1,
      (hval 0 h0).1, (hval 0 h0).2.1, (hval 0 h0).2.2.1,
      (hval (rx.length - 1) hl).1, (hval (rx.length - 1) hl).2.1,
      (hval (rx.length - 1) hl).2.2.1]
    exact ⟨by simp [solSpec, dSpec], by simp [solSpec, dSpec]⟩

/-- C1 (amended): with `n = len(rx) ≥ 2`, the forward sweep computes the
running pivot `bb[i] = 4 - 1/bb[i-1]` (`bb[0]` = 3 cyclic / 2 non-cyclic)
and eliminates `x`, `y` and the auxiliary `z` (raw vector `z[0]=1`, `z[i]=0`
elsewhere) via `v[i] = v_raw[i] - v[i-1]/bb[i-1]`; the last row uses
`(a,b) = (1,3)` cyclic and `(2,7)` non-cyclic for the pivot and the `x`/`y`
rows — while the `z` row (source line 79) uses raw value 1 and coefficient 1
in both modes — and is divided by `bb[n-1]` immediately; back-substitution
then computes `v[i] = (v[i] - v[i+1])/bb[i]`.  The recurrences are the
`bbSpecVal`/`specVal`/`specZVal` functions. -/
theorem c1_solver_recurrences (rx ry : List ℚ) (cyclic : Bool)
    (hn : 2 ≤ rx.length) :
    ∀ j, j < rx.length →
      (solveCore rx ry cyclic).bb.getD j 0 = bbSpecVal cyclic rx.length j ∧
      (solveCore rx ry cyclic).x.getD j 0
        = specVal cyclic rx.length (fun i => rx.getD i 0) j ∧
      (solveCore rx ry cyclic).y.getD j 0
        = specVal cyclic rx.length (fun i => ry.getD i 0) j ∧
      (solveCore rx ry cyclic).z.getD j 0 = specZVal cyclic rx.length j := by
  intro j hj
  obtain ⟨hlen, hval⟩ := solveCore_spec rx ry cyclic hn
  obtain ⟨e1, e2, e3, e4⟩ := hval j hj
  exact ⟨e4, e1, e2, e3⟩

/-- Witness for C1 at the concrete system `rx = [1,0]`, `ry = [0,1]`. -/
theorem c1_solver_recurrences_witness :
    2 ≤ ([(1:ℚ), 0] : List ℚ).length ∧
    ((solveCore [(1:ℚ), 0] [0, 1] false).bb.getD 0 0
        = bbSpecVal false ([(1:ℚ), 0] : List ℚ).length 0 ∧
      (solveCore [(1:ℚ), 0] [0, 1] false).x.getD 0 0
        = specVal false ([(1:ℚ), 0] : List ℚ).length
            (fun i => ([(1:ℚ), 0] : List ℚ).getD i 0) 0 ∧
      (solveCore [(1:ℚ), 0] [0, 1] false).y.getD 0 0
        = specVal false ([(1:ℚ), 0] : List ℚ).length
            (fun i => ([(0:ℚ), 1] : List ℚ).getD i 0) 0 ∧
      (solveCore [(1:ℚ), 0] [0, 1] false).z.getD 0 0
        = specZVal false ([(1:ℚ), 0] : List ℚ).length 0) :=
  ⟨by decide, c1_solver_recurrences [(1:ℚ), 0] [0, 1] false (by decide) 0 (by decide)⟩

/-- Counterexample to C1 as literally stated: at `rx = ry = [0,0]`,
non-cyclic, the program's back-substituted `z[1]` is `1/12`, not the
`-1/6` demanded by the literal reading of the claim (raw value 0 and
coefficient `a[n-1] = 2` on the last `z` row). -/
theorem c1_literal_z_counterexample :
    (solveCore [(0:ℚ), 0] [0, 0] false).z.getD 1 0 ≠ specZValClaim false 2 1 := by
  have h := (solveCore_spec [(0:ℚ), 0] [0, 0] false (by norm_num)).2 1 (by norm_num)
  rw [show (([(0:ℚ), 0] : List ℚ).length) = 2 from rfl] at h
  rw [h.2.2.1]
  norm_num [specZVal, specZValClaim, zLastVal, zLastValClaim, backAux, fwdVal,
    zRaw, bbClaim, bbLast, aLast, bLast]

/-- C2: for `n ≥ 2`, the cyclic solve corrects the back-substituted
solution by `d = 1 + z[0] + z[n-1]`, `fx = (x[0]+x[n-1])/d`,
`fy = (y[0]+y[n-1])/d`, `x[i] := x[i] - fx·z[i]`, `y[i] := y[i] - fy·z[i]`;
the non-cyclic solve returns the back-substituted vectors unchanged. -/
theorem c2_sherman_correction (rx ry : List ℚ) (hn : 2 ≤ rx.length) :
    (∀ j, j < rx.length →
      (solve rx ry true).1.getD j 0
        = (solveCore rx ry true).x.getD j 0 -
          ((solveCore rx ry true).x.getD 0 0
              + (solveCore rx ry true).x.getD (rx.length - 1) 0) /
            (1 + (solveCore rx ry true).z.getD 0 0
              + (solveCore rx ry true).z.getD (rx.length - 1) 0) *
            (solveCore rx ry true).z.getD j 0 ∧
      (solve rx ry true).2.getD j 0
        = (solveCore rx ry true).y.getD j 0 -
          ((solveCore rx ry true).y.getD 0 0
              + (solveCore rx ry true).y.getD (rx.length - 1) 0) /
            (1 + (solveCore rx ry true).z.getD 0 0
              + (solveCore rx ry true).z.getD (rx.length - 1) 0) *
            (solveCore rx ry true).z.getD j 0) ∧
    solve rx ry false = ((solveCore rx ry false).x, (solveCore rx ry false).y) := by
  refine ⟨?_, rfl⟩
  intro j hj
  obtain ⟨c1, c2, c3, c4⟩ :=
    cyclicCorrect_spec rx.length (solveCore rx ry true) (SVlen_solveCore rx ry true)
  rw [solve_true_eq]
  exact (c4 j hj)

/-- Witness for C2 at `rx = [1,0]`, `ry = [0,2]`, row 0. -/
theorem c2_sherman_correction_witness :
    2 ≤ ([(1:ℚ), 0] : List ℚ).length ∧
    ((solve [(1:ℚ), 0] [0, 2] true).1.getD 0 0
        = (solveCore [(1:ℚ), 0] [0, 2] true).x.getD 0 0 -
          ((solveCore [(1:ℚ), 0] [0, 2] true).x.getD 0 0
              + (solveCore [(1:ℚ), 0] [0, 2] true).x.getD
                  (([(1:ℚ), 0] : List ℚ).length - 1) 0) /
            (1 + (solveCore [(1:ℚ), 0] [0, 2] true).z.getD 0 0
              + (solveCore [(1:ℚ), 0] [0, 2] true).z.getD
                  (([(1:ℚ), 0] : List ℚ).length - 1) 0) *
            (solveCore [(1:ℚ), 0] [0, 2] true).z.getD 0 0 ∧
      (solve [(1:ℚ), 0] [0, 2] true).2.getD 0 0
        = (solveCore [(1:ℚ), 0] [0, 2] true).y.getD 0 0 -
          ((solveCore [(1:ℚ), 0] [0, 2] true).y.getD 0 0
              + (solveCore [(1:ℚ), 0] [0, 2] true).y.getD
                  (([(1:ℚ), 0] : List ℚ).length - 1) 0) /
            (1 + (solveCore [(1:ℚ), 0] [0, 2] true).z.getD 0 0
              + (solveCore [(1:ℚ), 0] [0, 2] true).z.getD
                  (([(1:ℚ), 0] : List ℚ).length - 1) 0) *
            (solveCore [(1:ℚ), 0] [0, 2] true).z.getD 0 0) :=
  ⟨by decide, (c2_sherman_correction [(1:ℚ), 0] [0, 2] (by decide)).1 0 (by decide)⟩

/-- C3: after solving for the first control points, the second control
point of every segment `i < n-1` is `Q[i] = 2·K[i+1] - P[i+1]` (per axis),
and the last segment uses `Q[n-1] = 2·K[0] - P[0]` when cyclic and
`Q[n-1] = (K[n] + P[n-1])/2` when non-cyclic, where `K` is the knot
sequence used for coefficient assembly (`knotsOf points`). -/
theorem c3_second_control_points (points : List (ℚ × ℚ)) (cyclic : Bool)
    (hp : 2 ≤ points.length) :
    (∀ i, i < segCount points cyclic - 1 →
      ((spline_through points cyclic).getD i seg0).q
        = (2 * ((knotsOf points).getD (i+1) (0,0)).1 - (POf points cyclic).1.getD (i+1) 0,
           2 * ((knotsOf points).getD (i+1) (0,0)).2 - (POf points cyclic).2.getD (i+1) 0)) ∧
    ((spline_through points cyclic).getD (segCount points cyclic - 1) seg0).q
      = (if cyclic then
          (2 * ((knotsOf points).getD 0 (0,0)).1 - (POf points cyclic).1.getD 0 0,
           2 * ((knotsOf points).getD 0 (0,0)).2 - (POf points cyclic).2.getD 0 0)
        else
          ((((knotsOf points).getD (segCount points cyclic) (0,0)).1
              + (POf points cyclic).1.getD (segCount points cyclic - 1) 0) / 2,
           (((knotsOf points).getD (segCount points cyclic) (0,0)).2
              + (POf points cyclic).2.getD (segCount points cyclic - 1) 0) / 2)) := by
  have hn1 : 1 ≤ segCount points cyclic := by
    cases cyclic <;> simp [segCount] <;> omega
  constructor
  · intro i hi
    rw [spline_getD points cyclic (by omega)]
    show ((QxOf points cyclic).getD i 0, (QyOf points cyclic).getD i 0) = _
    rw [show QxOf points cyclic
        = qAssemble Prod.fst (knotsOf points) (POf points cyclic).1
            (segCount points cyclic) cyclic from rfl,
      show QyOf points cyclic
        = qAssemble Prod.snd (knotsOf points) (POf points cyclic).2
            (segCount points cyclic) cyclic from rfl,
      qAssemble_getD_mid _ _ _ _ _ hi, qAssemble_getD_mid _ _ _ _ _ hi]
  · rw [spline_getD points cyclic (by omega)]
    show ((QxOf points cyclic).getD _ 0, (QyOf points cyclic).getD _ 0) = _
    rw [show QxOf points cyclic
        = qAssemble Prod.fst (knotsOf points) (POf points cyclic).1
            (segCount points cyclic) cyclic from rfl,
      show QyOf points cyclic
        = qAssemble Prod.snd (knotsOf points) (POf points cyclic).2
            (segCount points cyclic) cyclic from rfl]
    cases cyclic with
    | true =>
      rw [qAssemble_getD_last_cyclic _ _ _ _ hn1,
        qAssemble_getD_last_cyclic _ _ _ _ hn1]
      simp
    | false =>
      rw [qAssemble_getD_last_noncyclic _ _ _ _ hn1,
        qAssemble_getD_last_noncyclic _ _ _ _ hn1]
      simp

/-- Witness for C3 on the open square-ish input. -/
theorem c3_second_control_points_witness :
    2 ≤ ([((0:ℚ),(0:ℚ)), (1,0), (1,1)] : List (ℚ × ℚ)).length ∧
    ((spline_through [((0:ℚ),(0:ℚ)), (1,0), (1,1)] false).getD
        (segCount [((0:ℚ),(0:ℚ)), (1,0), (1,1)] false - 1) seg0).q
      = (if false then
          (2 * ((knotsOf [((0:ℚ),(0:ℚ)), (1,0), (1,1)]).getD 0 (0,0)).1
              - (POf [((0:ℚ),(0:ℚ)), (1,0), (1,1)] false).1.getD 0 0,
           2 * ((knotsOf [((0:ℚ),(0:ℚ)), (1,0), (1,1)]).getD 0 (0,0)).2
              - (POf [((0:ℚ),(0:ℚ)), (1,0), (1,1)] false).2.getD 0 0)
        else
          ((((knotsOf [((0:ℚ),(0:ℚ)), (1,0), (1,1)]).getD
                (segCount [((0:ℚ),(0:ℚ)), (1,0), (1,1)] false) (0,0)).1
              + (POf [((0:ℚ),(0:ℚ)), (1,0), (1,1)] false).1.getD
                  (segCount [((0:ℚ),(0:ℚ)), (1,0), (1,1)] false - 1) 0) / 2,
           (((knotsOf [((0:ℚ),(0:ℚ)), (1,0), (1,1)]).getD
                (segCount [((0:ℚ),(0:ℚ)), (1,0), (1,1)] false) (0,0)).2
              + (POf [((0:ℚ),(0:ℚ)), (1,0), (1,1)] false).2.getD
                  (segCount [((0:ℚ),(0:ℚ)), (1,0), (1,1)] false - 1) 0) / 2)) :=
  ⟨by decide,
    (c3_second_control_points [((0:ℚ),(0:ℚ)), (1,0), (1,1)] false (by decide)).2⟩

/-- C4 (amended): the builder first scales every input coordinate by the
unit-conversion constant 28.45274 (line 103), and the cyclic coefficient
assembly then reads `rx[i] = 4·K[i].x + 2·K[(i+1) mod n].x` (similarly
`ry`) on the scaled knots `K`, not on the raw caller-supplied points. -/
theorem c4_cyclic_coefficients (points : List (ℚ × ℚ)) (hp : 2 ≤ points.length) :
    ∀ i, i < points.length →
      (rxOf points true).getD i 0
        = 4 * ((points.getD i (0,0)).1 * scaleConst)
          + 2 * ((points.getD ((i+1) % points.length) (0,0)).1 * scaleConst) ∧
      (ryOf points true).getD i 0
        = 4 * ((points.getD i (0,0)).2 * scaleConst)
          + 2 * ((points.getD ((i+1) % points.length) (0,0)).2 * scaleConst) := by
  intro i hi
  have hseg : segCount points true = points.length := rfl
  have hmod : (i+1) % points.length < points.length := Nat.mod_lt _ (by omega)
  constructor
  · rw [show rxOf points true
        = rAssemble Prod.fst (knotsOf points) (segCount points true) true from rfl,
      hseg, rAssemble_cyclic_getD Prod.fst (knotsOf points) points.length hi,
      knotsOf_getD points hi, knotsOf_getD points hmod]
  · rw [show ryOf points true
        = rAssemble Prod.snd (knotsOf points) (segCount points true) true from rfl,
      hseg, rAssemble_cyclic_getD Prod.snd (knotsOf points) points.length hi,
      knotsOf_getD points hi, knotsOf_getD points hmod]

/-- Witness for C4 at the two-point cyclic input. -/
theorem c4_cyclic_coefficients_witness :
    2 ≤ ([((0:ℚ),(0:ℚ)), (1,0)] : List (ℚ × ℚ)).length ∧
    ((rxOf [((0:ℚ),(0:ℚ)), (1,0)] true).getD 0 0
        = 4 * ((([((0:ℚ),(0:ℚ)), (1,0)] : List (ℚ × ℚ)).getD 0 (0,0)).1 * scaleConst)
          + 2 * ((([((0:ℚ),(0:ℚ)), (1,0)] : List (ℚ × ℚ)).getD
              ((0+1) % ([((0:ℚ),(0:ℚ)), (1,0)] : List (ℚ × ℚ)).length) (0,0)).1 * scaleConst) ∧
      (ryOf [((0:ℚ),(0:ℚ)), (1,0)] true).getD 0 0
        = 4 * ((([((0:ℚ),(0:ℚ)), (1,0)] : List (ℚ × ℚ)).getD 0 (0,0)).2 * scaleConst)
          + 2 * ((([((0:ℚ),(0:ℚ)), (1,0)] : List (ℚ × ℚ)).getD
              ((0+1) % ([((0:ℚ),(0:ℚ)), (1,0)] : List (ℚ × ℚ)).length) (0,0)).2 * scaleConst)) :=
  ⟨by decide, c4_cyclic_coefficients [((0:ℚ),(0:ℚ)), (1,0)] (by decide) 0 (by decide)⟩

lemma rx_two_point_cyclic_eval :
    (rxOf [((0:ℚ),(0:ℚ)), (1,0)] true).getD 0 0 = 2845274 / 50000 := by
  rw [show rxOf [((0:ℚ),(0:ℚ)), (1,0)] true
      = rAssemble Prod.fst (knotsOf [((0:ℚ),(0:ℚ)), (1,0)]) 2 true from rfl,
    rAssemble_cyclic_getD Prod.fst _ 2 (by norm_num)]
  norm_num [knotsOf, scaleConst, List.getD_cons_zero, List.getD_cons_succ]

/-- Counterexample to C4 as stated: on the cyclic input `[(0,0), (1,0)]`
the first assembled coefficient is `2·28.45274 = 56.90548`, not
`4·K[0].x + 2·K[1].x = 2` computed on the raw caller-supplied points —
the builder scales by 28.45274 internally. -/
theorem c4_unscaled_counterexample :
    (rxOf [((0:ℚ),(0:ℚ)), (1,0)] true).getD 0 0 ≠ 4 * (0:ℚ) + 2 * 1 := by
  rw [rx_two_point_cyclic_eval]
  norm_num

/-- C5: for `n_pts ≥ 2` knots, non-cyclic mode yields `n_pts - 1` segments
and cyclic mode `n_pts`; segments come in increasing index order, segment
`i` running from knot `i` to knot `i+1` (`(i+1) mod n` when cyclic); and
every coefficient, solution and derived vector has exactly the segment
count as its length. -/
theorem c5_segment_structure (points : List (ℚ × ℚ)) (cyclic : Bool)
    (hp : 2 ≤ points.length) :
    (spline_through points cyclic).length = segCount points cyclic ∧
    (cyclic = true → segCount points cyclic = points.length) ∧
    (cyclic = false → segCount points cyclic = points.length - 1) ∧
    (∀ i, i < segCount points cyclic →
      ((spline_through points cyclic).getD i seg0).k0 = (knotsOf points).getD i (0,0) ∧
      ((spline_through points cyclic).getD i seg0).k1
        = (knotsOf points).getD
            (if cyclic then (i+1) % segCount points cyclic else i+1) (0,0)) ∧
    (rxOf points cyclic).length = segCount points cyclic ∧
    (ryOf points cyclic).length = segCount points cyclic ∧
    (POf points cyclic).1.length = segCount points cyclic ∧
    (POf points cyclic).2.length = segCount points cyclic ∧
    (QxOf points cyclic).length = segCount points cyclic ∧
    (QyOf points cyclic).length = segCount points cyclic := by
  have hrx : (rxOf points cyclic).length = segCount points cyclic :=
    rAssemble_length _ _ _ _
  refine ⟨spline_length points cyclic, fun h => by rw [h]; rfl, fun h => by rw [h]; rfl,
    ?_, hrx, rAssemble_length _ _ _ _, ?_, ?_, qAssemble_length _ _ _ _ _,
    qAssemble_length _ _ _ _ _⟩
  · intro i hi
    rw [spline_getD points cyclic hi]
    exact ⟨rfl, rfl⟩
  · rw [show POf points cyclic = solve (rxOf points cyclic) (ryOf points cyclic) cyclic
      from rfl]
    rw [(solve_lengths _ _ _).1, hrx]
  · rw [show POf points cyclic = solve (rxOf points cyclic) (ryOf points cyclic) cyclic
      from rfl]
    rw [(solve_lengths _ _ _).2, hrx]

/-- Witness for C5 at a three-point cyclic input. -/
theorem c5_segment_structure_witness :
    2 ≤ ([((0:ℚ),(0:ℚ)), (1,0), (0,1)] : List (ℚ × ℚ)).length ∧
    (spline_through [((0:ℚ),(0:ℚ)), (1,0), (0,1)] true).length
      = segCount [((0:ℚ),(0:ℚ)), (1,0), (0,1)] true :=
  ⟨by decide,
    (c5_segment_structure [((0:ℚ),(0:ℚ)), (1,0), (0,1)] true (by decide)).1⟩

/-- C8: the solver asserts `len(rx) == len(ry)` (modelled by the
`solveChecked` guard) and, for equal-length inputs with `n ≥ 2`, returns
exactly two sequences `x`, `y` of length `n`. -/
theorem c8_solve_contract (rx ry : List ℚ) (cyclic : Bool) :
    (rx.length ≠ ry.length → solveChecked rx ry cyclic = none) ∧
    (rx.length = ry.length → 2 ≤ rx.length →
      ∃ x y, solveChecked rx ry cyclic = some (x, y)
        ∧ x.length = rx.length ∧ y.length = rx.length) := by
  constructor
  · intro h
    simp [solveChecked, h]
  · intro h _
    exact ⟨(solve rx ry cyclic).1, (solve rx ry cyclic).2, by simp [solveChecked, h],
      (solve_lengths rx ry cyclic).1, (solve_lengths rx ry cyclic).2⟩

/-- Witness for C8: a mismatched pair is rejected, an equal pair of length
2 produces two length-2 vectors. -/
theorem c8_solve_contract_witness :
    (([(1:ℚ)] : List ℚ).length ≠ ([(1:ℚ), 2] : List ℚ).length →
      solveChecked [(1:ℚ)] [1, 2] false = none) ∧
    solveChecked [(1:ℚ)] [1, 2] false = none ∧
    (∃ x y, solveChecked [(1:ℚ), 2] [3, 4] false = some (x, y)
      ∧ x.length = ([(1:ℚ), 2] : List ℚ).length
      ∧ y.length = ([(1:ℚ), 2] : List ℚ).length) :=
  ⟨(c8_solve_contract [(1:ℚ)] [1, 2] false).1,
    (c8_solve_contract [(1:ℚ)] [1, 2] false).1 (by decide),
    (c8_solve_contract [(1:ℚ), 2] [3, 4] false).2 (by decide) (by decide)⟩

/-- The one-row open system solves to `x/9` on each axis. -/
lemma solve_single (a b : ℚ) : solve [a] [b] false = ([a/9], [b/9]) := by
  norm_num [solve, solveCore, backSub, lastRow, fwdSweep, initSV, pyGet, pySet, pyIdx]
  constructor <;> ring

lemma list_len_one (l : List ℚ) (h : l.length = 1) : l = [l.getD 0 0] := by
  match l, h with
  | [a], _ => rfl

lemma rx_two_knot_eval :
    rxOf [((0:ℚ),(0:ℚ)), (1,0)] false = [2845274/100000] := by
  have h1 : (rxOf [((0:ℚ),(0:ℚ)), (1,0)] false).length = 1 := rAssemble_length _ _ _ _
  rw [list_len_one _ h1,
    show rxOf [((0:ℚ),(0:ℚ)), (1,0)] false
      = rAssemble Prod.fst (knotsOf [((0:ℚ),(0:ℚ)), (1,0)]) 1 false from rfl,
    rAssemble_noncyclic_last Prod.fst _ 1 (by norm_num)]
  norm_num [knotsOf, scaleConst, List.getD_cons_zero, List.getD_cons_succ]

lemma ry_two_knot_eval :
    ryOf [((0:ℚ),(0:ℚ)), (1,0)] false = [0] := by
  have h1 : (ryOf [((0:ℚ),(0:ℚ)), (1,0)] false).length = 1 := rAssemble_length _ _ _ _
  rw [list_len_one _ h1,
    show ryOf [((0:ℚ),(0:ℚ)), (1,0)] false
      = rAssemble Prod.snd (knotsOf [((0:ℚ),(0:ℚ)), (1,0)]) 1 false from rfl,
    rAssemble_noncyclic_last Prod.snd _ 1 (by norm_num)]
  norm_num [knotsOf, scaleConst, List.getD_cons_zero, List.getD_cons_succ]

lemma P_two_knot_eval :
    POf [((0:ℚ),(0:ℚ)), (1,0)] false = ([2845274/900000], [0]) := by
  rw [show POf [((0:ℚ),(0:ℚ)), (1,0)] false
      = solve (rxOf [((0:ℚ),(0:ℚ)), (1,0)] false) (ryOf [((0:ℚ),(0:ℚ)), (1,0)] false)
          false from rfl,
    rx_two_knot_eval, ry_two_knot_eval, solve_single]
  norm_num

lemma Qx_two_knot_eval :
    QxOf [((0:ℚ),(0:ℚ)), (1,0)] false = [1422637/90000] := by
  have h1 : (QxOf [((0:ℚ),(0:ℚ)), (1,0)] false).length = 1 := qAssemble_length _ _ _ _ _
  rw [list_len_one _ h1,
    show QxOf [((0:ℚ),(0:ℚ)), (1,0)] false
      = qAssemble Prod.fst (knotsOf [((0:ℚ),(0:ℚ)), (1,0)])
          (POf [((0:ℚ),(0:ℚ)), (1,0)] false).1 1 false from rfl,
    qAssemble_getD_last_noncyclic Prod.fst _ _ 1 (by norm_num), P_two_knot_eval]
  norm_num [knotsOf, scaleConst, List.getD_cons_zero, List.getD_cons_succ]

lemma Qy_two_knot_eval :
    QyOf [((0:ℚ),(0:ℚ)), (1,0)] false = [0] := by
  have h1 : (QyOf [((0:ℚ),(0:ℚ)), (1,0)] false).length = 1 := qAssemble_length _ _ _ _ _
  rw [list_len_one _ h1,
    show QyOf [((0:ℚ),(0:ℚ)), (1,0)] false
      = qAssemble Prod.snd (knotsOf [((0:ℚ),(0:ℚ)), (1,0)])
          (POf [((0:ℚ),(0:ℚ)), (1,0)] false).2 1 false from rfl,
    qAssemble_getD_last_noncyclic Prod.snd _ _ 1 (by norm_num), P_two_knot_eval]
  norm_num [knotsOf, scaleConst, List.getD_cons_zero, List.getD_cons_succ]

/-- Full evaluation of the two-knot open curve. -/
lemma spline_two_knot_eval :
    spline_through [((0:ℚ),(0:ℚ)), (1,0)] false
      = [{ k0 := (0,0), p := (2845274/900000, 0), q := (1422637/90000, 0),
           k1 := (2845274/100000, 0) }] := by
  have hs : segCount [((0:ℚ),(0:ℚ)), (1,0)] false = 1 := rfl
  have hr : List.range 1 = [0] := rfl
  simp only [spline_through, hs, hr, List.map_cons, List.map_nil,
    P_two_knot_eval, Qx_two_knot_eval, Qy_two_knot_eval]
  norm_num [knotsOf, scaleConst, List.getD_cons_zero, List.getD_cons_succ]

/-- C9 (amended): the two-knot open input `[(0,0), (1,0)]` produces a
straight horizontal segment: both control points have `y = 0` and their
`x` coordinates lie strictly between the scaled knot abscissas `0` and
`1·28.45274` (the builder works on internally scaled knots, so "between 0
and 1" holds in input units, not for the emitted coordinates). -/
theorem c9_two_knot_horizontal :
    spline_through [((0:ℚ),(0:ℚ)), (1,0)] false
      = [{ k0 := (0,0), p := (2845274/900000, 0), q := (1422637/90000, 0),
           k1 := (2845274/100000, 0) }] ∧
    (0:ℚ) < 2845274/900000 ∧ (2845274/900000 : ℚ) < 1 * scaleConst ∧
    (0:ℚ) < 1422637/90000 ∧ (1422637/90000 : ℚ) < 1 * scaleConst := by
  refine ⟨spline_two_knot_eval, by norm_num, ?_, by norm_num, ?_⟩ <;>
    norm_num [scaleConst]

/-- Counterexample to C9 as stated: the first control point of the
two-knot open curve has `x = 2845274/900000 ≈ 3.16`, which does not lie
between 0 and 1. -/
theorem c9_unit_interval_counterexample :
    ¬ ((spline_through [((0:ℚ),(0:ℚ)), (1,0)] false).getD 0 seg0).p.1 ≤ 1 := by
  rw [spline_two_knot_eval]
  norm_num [List.getD_cons_zero]

/-! Exception-aware evaluations for short inputs. -/

/-- With at most two rows the interior forward sweep performs no
iteration at all. -/
lemma fwdSweepO_short (rx ry : List ℚ) (h : rx.length ≤ 2) (s : SV) :
    fwdSweepO rx ry s = some s := by
  have e : rx.length - 2 = 0 := by omega
  simp [fwdSweepO, e]

lemma backSubO_one (s : SV) : backSubO 1 s = some s := by
  simp [backSubO]

lemma initSVO_single_eval : initSVO [(0:ℚ)] [0] true = some ⟨[0],[0],[1],[3]⟩ := by
  norm_num [initSVO, pyGetO, pySetO, pyIdx]

lemma fwdSweepO_single_eval (s : SV) : fwdSweepO [(0:ℚ)] [0] s = some s :=
  fwdSweepO_short _ _ (by norm_num) s

lemma lastRowO_single_eval :
    lastRowO [(0:ℚ)] [0] true ⟨[0],[0],[1],[3]⟩ = some ⟨[0],[0],[15/64],[8/3]⟩ := by
  norm_num [lastRowO, lastPivotO, lastElimO, lastElimZO, normLastO,
    pyGetO, pySetO, pyDivO, pyIdx]

lemma cyclicCorrectO_single_eval :
    cyclicCorrectO 1 ⟨[0],[0],[15/64],[8/3]⟩ = some ⟨[0],[0],[15/64],[8/3]⟩ := by
  norm_num [cyclicCorrectO, corrStepO, pyGetO, pySetO, pyDivO, pyIdx, List.foldlM]

/-- The one-knot cyclic system solves without raising anything. -/
lemma solveO_single_cyclic_eval : solveO [(0:ℚ)] [0] true = some ([0], [0]) := by
  simp [solveO, initSVO_single_eval, fwdSweepO_single_eval, lastRowO_single_eval,
    backSubO_one, cyclicCorrectO_single_eval]

lemma rAssembleO_single_fst :
    rAssembleO Prod.fst (knotsOf [((0:ℚ),(0:ℚ))]) 1 true = some [0] := by
  norm_num [rAssembleO, knotsOf, pyGetPO, pySetO, pyIdx, List.foldlM, scaleConst]

lemma rAssembleO_single_snd :
    rAssembleO Prod.snd (knotsOf [((0:ℚ),(0:ℚ))]) 1 true = some [0] := by
  norm_num [rAssembleO, knotsOf, pyGetPO, pySetO, pyIdx, List.foldlM, scaleConst]

lemma qAssembleO_single_fst :
    qAssembleO Prod.fst (knotsOf [((0:ℚ),(0:ℚ))]) [0] 1 true = some [0] := by
  norm_num [qAssembleO, knotsOf, pyGetO, pyGetPO, pySetO, pyIdx, List.foldlM, scaleConst]

lemma qAssembleO_single_snd :
    qAssembleO Prod.snd (knotsOf [((0:ℚ),(0:ℚ))]) [0] 1 true = some [0] := by
  norm_num [qAssembleO, knotsOf, pyGetO, pyGetPO, pySetO, pyIdx, List.foldlM, scaleConst]

/-- A single-knot cyclic call runs to completion and emits one (degenerate)
segment — no exception of any kind is raised. -/
lemma splineO_one_knot_cyclic_eval :
    splineO [((0:ℚ),(0:ℚ))] true = some [⟨(0,0),(0,0),(0,0),(0,0)⟩] := by
  have hs : segCount [((0:ℚ),(0:ℚ))] true = 1 := rfl
  simp only [splineO, hs, Option.bind_eq_bind, Option.pure_def]
  rw [rAssembleO_single_fst]
  simp only [Option.some_bind]
  rw [rAssembleO_single_snd]
  simp only [Option.some_bind]
  rw [solveO_single_cyclic_eval]
  simp only [Option.some_bind]
  rw [qAssembleO_single_fst]
  simp only [Option.some_bind]
  rw [qAssembleO_single_snd]
  simp only [Option.some_bind]
  norm_num [List.mapM, List.mapM.loop, knotsOf, scaleConst, pyGetO, pyGetPO, pyIdx]

lemma splineO_one_knot_open_eval : splineO [((0:ℚ),(0:ℚ))] false = none := by
  norm_num [splineO, rAssembleO, knotsOf, pyGetPO, pySetO, pyIdx, scaleConst]

lemma splineO_empty_open_eval : splineO ([] : List (ℚ × ℚ)) false = none := by
  norm_num [splineO, rAssembleO, knotsOf, pyGetPO, pySetO, pyIdx]

lemma splineO_empty_cyclic_eval : splineO ([] : List (ℚ × ℚ)) true = none := by
  have h1 : rAssembleO Prod.fst (knotsOf ([] : List (ℚ × ℚ))) 0 true = some [] := by
    simp [rAssembleO, knotsOf]
  have h2 : rAssembleO Prod.snd (knotsOf ([] : List (ℚ × ℚ))) 0 true = some [] := by
    simp [rAssembleO, knotsOf]
  have h3 : solveO ([] : List ℚ) [] true = none := by
    norm_num [solveO, initSVO, pySetO, pyIdx]
  simp [splineO, segCount, h1, h2, h3]

/-- C7 (amended): `spline_through` performs no length validation at all.
A 1-knot cyclic input is silently computed to completion, emitting one
degenerate segment; a 1-knot open input and the empty input fail only with
an `IndexError` raised in the middle of coefficient assembly or solver
initialisation (modelled by `none`), never with a fail-fast InvalidInput
check before computation. -/
theorem c7_no_input_validation :
    splineO [((0:ℚ),(0:ℚ))] true = some [⟨(0,0),(0,0),(0,0),(0,0)⟩] ∧
    splineO [((0:ℚ),(0:ℚ))] false = none ∧
    splineO ([] : List (ℚ × ℚ)) true = none ∧
    splineO ([] : List (ℚ × ℚ)) false = none :=
  ⟨splineO_one_knot_cyclic_eval, splineO_one_knot_open_eval,
    splineO_empty_cyclic_eval, splineO_empty_open_eval⟩

/-- Counterexample to C7 as stated: the 1-knot cyclic call (length < 2)
does not fail at all — it completes normally — so no InvalidInput error is
raised before coefficient assembly. -/
theorem c7_no_failfast_counterexample :
    splineO [((0:ℚ),(0:ℚ))] true ≠ none := by
  rw [splineO_one_knot_cyclic_eval]
  exact Option.some_ne_none _

lemma initSVO_pair_eval (a b : ℚ) : initSVO [a] [b] false = some ⟨[a],[b],[1],[2]⟩ := by
  norm_num [initSVO, pyGetO, pySetO, pyIdx]

lemma lastRowO_pair_eval (a b : ℚ) :
    lastRowO [a] [b] false ⟨[a],[b],[1],[2]⟩ = some ⟨[a/9],[b/9],[5/36],[6]⟩ := by
  norm_num [lastRowO, lastPivotO, lastElimO, lastElimZO, normLastO,
    pyGetO, pySetO, pyDivO, pyIdx]
  and_intros <;> ring

/-- The one-row open system solves to `x/9` on each axis without raising,
for arbitrary right-hand sides. -/
lemma solveO_pair_open_eval (a b : ℚ) : solveO [a] [b] false = some ([a/9], [b/9]) := by
  simp [solveO, initSVO_pair_eval, lastRowO_pair_eval, backSubO_one,
    fwdSweepO_short [a] [b] (by norm_num)]

lemma rAssembleO_pair_eval (f : ℚ × ℚ → ℚ) (A B : ℚ × ℚ) :
    rAssembleO f [A, B] 1 false = some [8 * f A + f B] := by
  norm_num [rAssembleO, pyGetPO, pySetO, pyIdx, List.foldlM]

lemma qAssembleO_pair_eval (f : ℚ × ℚ → ℚ) (A B : ℚ × ℚ) (v : ℚ) :
    qAssembleO f [A, B] [v] 1 false = some [(f B + v) / 2] := by
  norm_num [qAssembleO, pyGetO, pyGetPO, pySetO, pyDivO, pyIdx, List.foldlM]

/-- C6: on a two-point open curve the solver runs with `n = 1`: the interior
forward sweep performs zero iterations (it is the identity on any
singleton system), no exception or out-of-range access occurs anywhere
(the exception-aware run returns `some`), and exactly one well-defined
segment is produced, from the first-row and last-row formulas alone
(`Px = rx[0]/9` with `rx[0] = 8·K[0].x + K[1].x`, `Qx = (K[1].x + Px)/2`). -/
theorem c6_two_point_open_degenerate (p q : ℚ × ℚ) :
    (∀ (a b : ℚ) (s : SV), fwdSweepO [a] [b] s = some s) ∧
    splineO [p, q] false
      = some [{ k0 := (p.1 * scaleConst, p.2 * scaleConst)
                p := ((8 * (p.1 * scaleConst) + q.1 * scaleConst) / 9,
                      (8 * (p.2 * scaleConst) + q.2 * scaleConst) / 9)
                q := ((q.1 * scaleConst + (8 * (p.1 * scaleConst) + q.1 * scaleConst) / 9) / 2,
                      (q.2 * scaleConst + (8 * (p.2 * scaleConst) + q.2 * scaleConst) / 9) / 2)
                k1 := (q.1 * scaleConst, q.2 * scaleConst) }] := by
  refine ⟨fun a b s => fwdSweepO_short [a] [b] (by norm_num) s, ?_⟩
  have hs : segCount [p, q] false = 1 := rfl
  have hK : knotsOf [p, q]
      = [(p.1 * scaleConst, p.2 * scaleConst), (q.1 * scaleConst, q.2 * scaleConst)] := by
    simp [knotsOf]
  simp only [splineO, hs, hK, Option.bind_eq_bind, Option.pure_def]
  rw [rAssembleO_pair_eval]
  simp only [Option.some_bind]
  rw [rAssembleO_pair_eval]
  simp only [Option.some_bind]
  rw [solveO_pair_open_eval]
  simp only [Option.some_bind]
  rw [qAssembleO_pair_eval]
  simp only [Option.some_bind]
  rw [qAssembleO_pair_eval]
  simp only [Option.some_bind]
  norm_num [List.mapM, List.mapM.loop, pyGetO, pyGetPO, pyIdx]

lemma solve_fst_length (rx ry : List ℚ) (cyclic : Bool) :
    (solve rx ry cyclic).1.length = rx.length := (solve_lengths rx ry cyclic).1

lemma solve_snd_length (rx ry : List ℚ) (cyclic : Bool) :
    (solve rx ry cyclic).2.length = rx.length := (solve_lengths rx ry cyclic).2

/-! Homogeneity: scaling every input coordinate scales every computed
quantity, stage by stage. -/

lemma getD_map_smul (s : ℚ) (l : List ℚ) (i : ℕ) :
    (l.map (fun v => s * v)).getD i 0 = s * l.getD i 0 := by
  rw [List.getD_eq_getElem?_getD, List.getD_eq_getElem?_getD, List.getElem?_map]
  cases l[i]? <;> simp

lemma pmul_fst (s : ℚ) (v : ℚ × ℚ) : (pmul s v).1 = s * v.1 := rfl

lemma pmul_snd (s : ℚ) (v : ℚ × ℚ) : (pmul s v).2 = s * v.2 := rfl

lemma knotsOf_pmul_getD (s : ℚ) (points : List (ℚ × ℚ)) (i : ℕ) :
    (knotsOf (points.map (pmul s))).getD i (0,0)
      = pmul s ((knotsOf points).getD i (0,0)) := by
  unfold knotsOf
  rw [List.map_map, List.getD_eq_getElem?_getD, List.getD_eq_getElem?_getD,
    List.getElem?_map, List.getElem?_map]
  cases points[i]? with
  | none => simp [pmul]
  | some v =>
    simp only [Option.map_some', Option.getD_some, Function.comp_apply, pmul,
      Prod.mk.injEq]
    constructor <;> ring

lemma segCount_pmul (s : ℚ) (points : List (ℚ × ℚ)) (cyclic : Bool) :
    segCount (points.map (pmul s)) cyclic = segCount points cyclic := by
  simp [segCount]

lemma list_ext_getD (l1 l2 : List ℚ) (hlen : l1.length = l2.length)
    (h : ∀ i, i < l1.length → l1.getD i 0 = l2.getD i 0) : l1 = l2 := by
  apply List.ext_getElem hlen
  intro i h1 h2
  have e := h i h1
  rwa [List.getD_eq_getElem l1 0 h1, List.getD_eq_getElem l2 0 h2] at e

/-- Scaling the knots scales each assembled coefficient vector. -/
lemma rAssemble_knots_smul (s : ℚ) (f : ℚ × ℚ → ℚ)
    (hf : ∀ v, f (pmul s v) = s * f v) (points : List (ℚ × ℚ)) (cyclic : Bool)
    (hn : 1 ≤ segCount points cyclic) :
    rAssemble f (knotsOf (points.map (pmul s))) (segCount points cyclic) cyclic
      = (rAssemble f (knotsOf points) (segCount points cyclic) cyclic).map
          (fun v => s * v) := by
  set n := segCount points cyclic with hnn
  apply list_ext_getD
  · rw [rAssemble_length, List.length_map, rAssemble_length]
  · intro i hi0
    have hi : i < n := by rwa [rAssemble_length] at hi0
    rw [getD_map_smul]
    cases cyclic with
    | true =>
      rw [rAssemble_cyclic_getD f _ n hi, rAssemble_cyclic_getD f _ n hi,
        knotsOf_pmul_getD, knotsOf_pmul_getD, hf, hf]
      ring
    | false =>
      by_cases hlast : i = n - 1
      · subst hlast
        rw [rAssemble_noncyclic_last f _ n hn, rAssemble_noncyclic_last f _ n hn,
          knotsOf_pmul_getD, knotsOf_pmul_getD, hf, hf]
        ring
      · have hi1 : i < n - 1 := by omega
        have hn2 : 2 ≤ n := by omega
        by_cases h0 : i = 0
        · subst h0
          rw [rAssemble_noncyclic_first f _ n hn2, rAssemble_noncyclic_first f _ n hn2,
            knotsOf_pmul_getD, knotsOf_pmul_getD, hf, hf]
          ring
        · rw [rAssemble_noncyclic_mid f _ n (by omega) (by omega) hn2,
            rAssemble_noncyclic_mid f _ n (by omega) (by omega) hn2,
            knotsOf_pmul_getD, knotsOf_pmul_getD, hf, hf]
          ring

lemma rxOf_pmul (s : ℚ) (points : List (ℚ × ℚ)) (cyclic : Bool)
    (hn : 1 ≤ segCount points cyclic) :
    rxOf (points.map (pmul s)) cyclic = (rxOf points cyclic).map (fun v => s * v) := by
  rw [show rxOf (points.map (pmul s)) cyclic
      = rAssemble Prod.fst (knotsOf (points.map (pmul s)))
          (segCount (points.map (pmul s)) cyclic) cyclic from rfl,
    segCount_pmul]
  exact rAssemble_knots_smul s Prod.fst (fun v => rfl) points cyclic hn

lemma ryOf_pmul (s : ℚ) (points : List (ℚ × ℚ)) (cyclic : Bool)
    (hn : 1 ≤ segCount points cyclic) :
    ryOf (points.map (pmul s)) cyclic = (ryOf points cyclic).map (fun v => s * v) := by
  rw [show ryOf (points.map (pmul s)) cyclic
      = rAssemble Prod.snd (knotsOf (points.map (pmul s)))
          (segCount (points.map (pmul s)) cyclic) cyclic from rfl,
    segCount_pmul]
  exact rAssemble_knots_smul s Prod.snd (fun v => rfl) points cyclic hn

lemma fwdVal_smul (s : ℚ) (cyclic : Bool) (r : ℕ → ℚ) :
    ∀ j, fwdVal cyclic (fun i => s * r i) j = s * fwdVal cyclic r j := by
  intro j
  induction j with
  | zero => rfl
  | succ m ih =>
    rw [show fwdVal cyclic (fun i => s * r i) (m+1)
        = s * r (m+1) - fwdVal cyclic (fun i => s * r i) m / bbClaim cyclic m from rfl,
      ih,
      show fwdVal cyclic r (m+1)
        = r (m+1) - fwdVal cyclic r m / bbClaim cyclic m from rfl]
    ring

lemma lastVal_smul (s : ℚ) (cyclic : Bool) (n : ℕ) (r : ℕ → ℚ) :
    lastVal cyclic n (fun i => s * r i) = s * lastVal cyclic n r := by
  unfold lastVal
  rw [fwdVal_smul]
  ring

lemma backAux_smul (s : ℚ) (cyclic : Bool) (n : ℕ) (fw : ℕ → ℚ) (last : ℚ) :
    ∀ k, backAux cyclic n (fun i => s * fw i) (s * last) k
      = s * backAux cyclic n fw last k := by
  intro k
  induction k with
  | zero => rfl
  | succ m ih =>
    rw [show backAux cyclic n (fun i => s * fw i) (s * last) (m+1)
        = (s * fw (n-2-m) - backAux cyclic n (fun i => s * fw i) (s * last) m)
            / bbClaim cyclic (n-2-m) from rfl,
      ih,
      show backAux cyclic n fw last (m+1)
        = (fw (n-2-m) - backAux cyclic n fw last m) / bbClaim cyclic (n-2-m) from rfl]
    ring

lemma specVal_smul (s : ℚ) (cyclic : Bool) (n : ℕ) (r : ℕ → ℚ) (i : ℕ) :
    specVal cyclic n (fun j => s * r j) i = s * specVal cyclic n r i := by
  unfold specVal
  rw [lastVal_smul,
    show fwdVal cyclic (fun j => s * r j) = fun j => s * fwdVal cyclic r j from
      funext (fwdVal_smul s cyclic r)]
  exact backAux_smul s cyclic n _ _ _

lemma solSpec_smul (s : ℚ) (cyclic : Bool) (n : ℕ) (r : ℕ → ℚ) (i : ℕ) :
    solSpec cyclic n (fun j => s * r j) i = s * solSpec cyclic n r i := by
  cases cyclic with
  | false =>
    show specVal false n (fun j => s * r j) i = s * specVal false n r i
    exact specVal_smul s false n r i
  | true =>
    show specVal true n (fun j => s * r j) i - _ = s * (specVal true n r i - _)
    rw [specVal_smul, specVal_smul, specVal_smul]
    ring

/-- Scaling both right-hand sides scales both solution vectors. -/
lemma solve_map_smul (s : ℚ) (rx ry : List ℚ) (cyclic : Bool)
    (hry : ry.length = rx.length)
    (h : 2 ≤ rx.length ∨ (rx.length = 1 ∧ cyclic = false)) :
    solve (rx.map (fun v => s * v)) (ry.map (fun v => s * v)) cyclic
      = ((solve rx ry cyclic).1.map (fun v => s * v),
         (solve rx ry cyclic).2.map (fun v => s * v)) := by
  rcases h with h2 | ⟨h1, hc⟩
  · have hlx : (rx.map (fun v => s * v)).length = rx.length := by simp
    have h2' : 2 ≤ (rx.map (fun v => s * v)).length := by rwa [hlx]
    have hgx : (fun j => (rx.map (fun v => s * v)).getD j 0)
        = fun j => s * rx.getD j 0 := funext (getD_map_smul s rx)
    have hgy : (fun j => (ry.map (fun v => s * v)).getD j 0)
        = fun j => s * ry.getD j 0 := funext (getD_map_smul s ry)
    have e1 : (solve (rx.map (fun v => s * v)) (ry.map (fun v => s * v)) cyclic).1
        = (solve rx ry cyclic).1.map (fun v => s * v) := by
      apply list_ext_getD
      · simp only [solve_fst_length, List.length_map]
      · intro i hi0
        have hi : i < rx.length := by
          rwa [solve_fst_length, hlx] at hi0
        rw [(solve_getD_spec _ _ cyclic h2' (by rwa [hlx])).1, hlx, hgx,
          solSpec_smul, getD_map_smul, (solve_getD_spec rx ry cyclic h2 hi).1]
    have e2 : (solve (rx.map (fun v => s * v)) (ry.map (fun v => s * v)) cyclic).2
        = (solve rx ry cyclic).2.map (fun v => s * v) := by
      apply list_ext_getD
      · simp only [solve_snd_length, List.length_map]
      · intro i hi0
        have hi : i < rx.length := by
          rwa [solve_snd_length, hlx] at hi0
        rw [(solve_getD_spec _ _ cyclic h2' (by rwa [hlx])).2, hlx, hgy,
          solSpec_smul, getD_map_smul, (solve_getD_spec rx ry cyclic h2 hi).2]
    exact Prod.ext e1 e2
  · subst hc
    have hry1 : ry.length = 1 := by omega
    rw [list_len_one rx h1, list_len_one ry hry1]
    rw [show ([rx.getD 0 0] : List ℚ).map (fun v => s * v) = [s * rx.getD 0 0] from rfl,
      show ([ry.getD 0 0] : List ℚ).map (fun v => s * v) = [s * ry.getD 0 0] from rfl,
      solve_single, solve_single]
    have ea : s * rx.getD 0 0 / 9 = s * (rx.getD 0 0 / 9) := by ring
    have eb : s * ry.getD 0 0 / 9 = s * (ry.getD 0 0 / 9) := by ring
    rw [show (([rx.getD 0 0 / 9] : List ℚ), ([ry.getD 0 0 / 9] : List ℚ)).1.map
          (fun v => s * v) = [s * (rx.getD 0 0 / 9)] from rfl,
      show (([rx.getD 0 0 / 9] : List ℚ), ([ry.getD 0 0 / 9] : List ℚ)).2.map
          (fun v => s * v) = [s * (ry.getD 0 0 / 9)] from rfl, ea, eb]

lemma segCount_pos (points : List (ℚ × ℚ)) (cyclic : Bool)
    (hp : 2 ≤ points.length) : 1 ≤ segCount points cyclic := by
  cases cyclic <;> simp [segCount] <;> omega

lemma POf_pmul (s : ℚ) (points : List (ℚ × ℚ)) (cyclic : Bool)
    (hp : 2 ≤ points.length) :
    POf (points.map (pmul s)) cyclic
      = ((POf points cyclic).1.map (fun v => s * v),
         (POf points cyclic).2.map (fun v => s * v)) := by
  have hn1 : 1 ≤ segCount points cyclic := segCount_pos points cyclic hp
  rw [show POf (points.map (pmul s)) cyclic
      = solve (rxOf (points.map (pmul s)) cyclic) (ryOf (points.map (pmul s)) cyclic)
          cyclic from rfl,
    rxOf_pmul s points cyclic hn1, ryOf_pmul s points cyclic hn1]
  apply solve_map_smul
  · rw [show ryOf points cyclic
        = rAssemble Prod.snd (knotsOf points) (segCount points cyclic) cyclic from rfl,
      show rxOf points cyclic
        = rAssemble Prod.fst (knotsOf points) (segCount points cyclic) cyclic from rfl,
      rAssemble_length, rAssemble_length]
  · rw [show rxOf points cyclic
        = rAssemble Prod.fst (knotsOf points) (segCount points cyclic) cyclic from rfl,
      rAssemble_length]
    cases cyclic with
    | true => left; simpa [segCount] using hp
    | false =>
      rcases Nat.lt_or_ge points.length 3 with h3 | h3
      · right
        constructor
        · simp [segCount]; omega
        · rfl
      · left
        simp [segCount]; omega

/-- Scaling knots and first control points scales the second control
points, pointwise. -/
lemma qAssemble_smul_getD (s : ℚ) (f : ℚ × ℚ → ℚ)
    (hf : ∀ v, f (pmul s v) = s * f v) (points : List (ℚ × ℚ)) (P : List ℚ)
    (cyclic : Bool) (hn : 1 ≤ segCount points cyclic) {i : ℕ}
    (hi : i < segCount points cyclic) :
    (qAssemble f (knotsOf (points.map (pmul s))) (P.map (fun v => s * v))
        (segCount points cyclic) cyclic).getD i 0
      = s * (qAssemble f (knotsOf points) P (segCount points cyclic) cyclic).getD i 0 := by
  set n := segCount points cyclic with hnn
  by_cases hlast : i = n - 1
  · subst hlast
    cases cyclic with
    | true =>
      rw [qAssemble_getD_last_cyclic f _ _ n hn, qAssemble_getD_last_cyclic f _ _ n hn,
        knotsOf_pmul_getD, hf, getD_map_smul]
      ring
    | false =>
      rw [qAssemble_getD_last_noncyclic f _ _ n hn,
        qAssemble_getD_last_noncyclic f _ _ n hn,
        knotsOf_pmul_getD, hf, getD_map_smul]
      ring
  · have hi1 : i < n - 1 := by omega
    rw [qAssemble_getD_mid f _ _ n cyclic hi1, qAssemble_getD_mid f _ _ n cyclic hi1,
      knotsOf_pmul_getD, hf, getD_map_smul]
    ring

/-- C10: the whole pipeline is homogeneous of degree 1 in the coordinates:
scaling every input coordinate by `s` scales every knot and both control
points of every emitted segment by `s`. -/
theorem c10_homogeneous (points : List (ℚ × ℚ)) (cyclic : Bool) (s : ℚ)
    (hp : 2 ≤ points.length) :
    spline_through (points.map (pmul s)) cyclic
      = (spline_through points cyclic).map (segMul s) := by
  have hn1 : 1 ≤ segCount points cyclic := segCount_pos points cyclic hp
  apply List.ext_getElem
  · rw [spline_length, segCount_pmul, List.length_map, spline_length]
  · intro i h1 h2
    have hi : i < segCount points cyclic := by
      rwa [spline_length, segCount_pmul] at h1
    have hL : i < (spline_through (points.map (pmul s)) cyclic).length := h1
    have hR : i < (spline_through points cyclic).length := by
      rwa [spline_length]
    rw [← List.getD_eq_getElem (spline_through (points.map (pmul s)) cyclic) seg0 hL,
      List.getElem_map,
      ← List.getD_eq_getElem (spline_through points cyclic) seg0 hR,
      spline_getD (points.map (pmul s)) cyclic (by rwa [segCount_pmul]),
      spline_getD points cyclic hi]
    unfold segMul
    rw [segCount_pmul]
    have hq1 : (QxOf (points.map (pmul s)) cyclic).getD i 0
        = s * (QxOf points cyclic).getD i 0 := by
      rw [show QxOf (points.map (pmul s)) cyclic
          = qAssemble Prod.fst (knotsOf (points.map (pmul s)))
              (POf (points.map (pmul s)) cyclic).1
              (segCount (points.map (pmul s)) cyclic) cyclic from rfl,
        segCount_pmul, POf_pmul s points cyclic hp]
      exact qAssemble_smul_getD s Prod.fst (fun v => rfl) points _ cyclic hn1 hi
    have hq2 : (QyOf (points.map (pmul s)) cyclic).getD i 0
        = s * (QyOf points cyclic).getD i 0 := by
      rw [show QyOf (points.map (pmul s)) cyclic
          = qAssemble Prod.snd (knotsOf (points.map (pmul s)))
              (POf (points.map (pmul s)) cyclic).2
              (segCount (points.map (pmul s)) cyclic) cyclic from rfl,
        segCount_pmul, POf_pmul s points cyclic hp]
      exact qAssemble_smul_getD s Prod.snd (fun v => rfl) points _ cyclic hn1 hi
    rw [POf_pmul s points cyclic hp]
    simp only [Segment.mk.injEq]
    refine ⟨knotsOf_pmul_getD s points i, ?_, ?_, knotsOf_pmul_getD s points _⟩
    · rw [getD_map_smul, getD_map_smul]
      rfl
    · rw [hq1, hq2]
      rfl

/-- Witness for C10 at `points = [(0,0),(1,0)]`, `s = 2`, open curve. -/
theorem c10_homogeneous_witness :
    2 ≤ ([((0:ℚ),(0:ℚ)), (1,0)] : List (ℚ × ℚ)).length ∧
    spline_through (([((0:ℚ),(0:ℚ)), (1,0)] : List (ℚ × ℚ)).map (pmul 2)) false
      = (spline_through [((0:ℚ),(0:ℚ)), (1,0)] false).map (segMul 2) :=
  ⟨by decide, c10_homogeneous [((0:ℚ),(0:ℚ)), (1,0)] false 2 (by decide)⟩

end ControlPoints
